import Mathlib

/-!
Verification development for the TRDP web-simulator core
(telegram configuration model, binary field codec, TRDP engine scheduler,
MD session tracker, lifecycle/reconfiguration, DNR caches).

The definitions below are a shallow embedding of the C++ sources
`src/telegram_model.h`, `src/telegram_model.cpp`, `src/trdp_engine.h` and
`src/trdp_engine.cpp`:

* machine integers are modelled as `Nat`/`Int` with explicit ranges where the
  machine width matters; `float`/`double` values are carried as their 32/64-bit
  object representations (the codec only ever `memcpy`s them);
* `std::vector<std::uint8_t>` buffers are `List Nat` (each element `< 256`);
* `std::map` is an association list with ordered-map insert/lookup semantics;
* code that can throw (`std::get` on a mismatched `std::variant` alternative,
  `registerTelegram` on an unknown dataset) returns `Option`;
* wall-clock instants (`std::chrono::steady_clock::time_point`) are `Nat`
  millisecond counts, `std::chrono::milliseconds` durations are `Int`;
* external effects (the native TRDP stack, the subscriber hub, XML file I/O)
  are oracles passed in as explicit arguments.
-/

namespace Trdp

/-- Association-list lookup: first binding wins (mirrors `std::map::find`,
which holds at most one binding per key). -/
def alGet [DecidableEq κ] (l : List (κ × ν)) (k : κ) : Option ν :=
  match l with
  | [] => none
  | (k', v) :: rest => if k = k' then some v else alGet rest k

/-- Insert-or-assign (mirrors `map[k] = v`): replace the first binding of `k`,
or append a fresh binding. -/
def alSet [DecidableEq κ] (l : List (κ × ν)) (k : κ) (v : ν) : List (κ × ν) :=
  match l with
  | [] => [(k, v)]
  | (k', v') :: rest => if k = k' then (k, v) :: rest else (k', v') :: alSet rest k v

/-- Update only when the key is already bound (mirrors `find` + assign through
the iterator; unknown keys are left alone). -/
def alUpdate [DecidableEq κ] (l : List (κ × ν)) (k : κ) (v : ν) : List (κ × ν) :=
  match l with
  | [] => []
  | (k', v') :: rest => if k = k' then (k, v) :: rest else (k', v') :: alUpdate rest k v

/-- Insert only when the key is not yet bound (mirrors `std::map::emplace`). -/
def alEmplace [DecidableEq κ] (l : List (κ × ν)) (k : κ) (v : ν) : List (κ × ν) :=
  match l with
  | [] => [(k, v)]
  | (k', v') :: rest => if k = k' then (k', v') :: rest else (k', v') :: alEmplace rest k v

/-- The `w` little-endian bytes of the unsigned value `v` (`writeLe<T>`). -/
def toBytesLE (w : Nat) (v : Nat) : List Nat :=
  (List.range w).map fun i => v / 256 ^ i % 256

/-- Recompose an unsigned value from little-endian bytes (`readLe<T>`). -/
def fromBytesLE (bs : List Nat) : Nat :=
  match bs with
  | [] => 0
  | b :: rest => b + 256 * fromBytesLE rest

/-- `enum class FieldType` from `telegram_model.h`. -/
inductive FieldType
  | BOOL | INT8 | UINT8 | INT16 | UINT16 | INT32 | UINT32
  | FLOAT | DOUBLE | STRING | BYTES
deriving DecidableEq, Repr

/-- `struct FieldDef` from `telegram_model.h` (byte offsets and sizes). -/
structure FieldDef where
  name : String
  type : FieldType := FieldType.BYTES
  offset : Nat := 0
  size : Nat := 0
  bitOffset : Nat := 0
  arrayLength : Nat := 1
deriving DecidableEq, Repr

/-- `struct DatasetDef` from `telegram_model.h`: `size` is the declared size. -/
structure DatasetDef where
  name : String
  size : Nat := 0
  fields : List FieldDef := []
deriving DecidableEq, Repr

/-- `fieldTypeSize` from `telegram_model.cpp`: scalar width in bytes,
`0` for `STRING`/`BYTES`. -/
def fieldTypeSize : FieldType → Nat
  | FieldType.BOOL | FieldType.INT8 | FieldType.UINT8 => 1
  | FieldType.INT16 | FieldType.UINT16 => 2
  | FieldType.INT32 | FieldType.UINT32 | FieldType.FLOAT => 4
  | FieldType.DOUBLE => 8
  | FieldType.STRING | FieldType.BYTES => 0

/-- Per-field extent used inside `DatasetDef::computeSize`:
`baseSize * max(1, arrayLength)` with `baseSize = max(1, size)` for
string/bytes and the scalar width otherwise. -/
def computeFieldExtent (f : FieldDef) : Nat :=
  let typeSize := fieldTypeSize f.type
  let baseSize := if typeSize = 0 then max 1 f.size else typeSize
  baseSize * max 1 f.arrayLength

/-- `DatasetDef::computeSize` from `telegram_model.cpp`: returns the declared
size as soon as it is non-zero, otherwise the maximum over the fields of
`offset + extent`. -/
def DatasetDef.computeSize (D : DatasetDef) : Nat :=
  if D.size > 0 then D.size
  else D.fields.foldl (fun m f => max m (f.offset + computeFieldExtent f)) 0

/-- Maximum over the dataset's fields of `offset + extent`, with the extent
computed exactly as `DatasetDef::computeSize` computes it. -/
def fieldMaxExtent (D : DatasetDef) : Nat :=
  D.fields.foldl (fun m f => max m (f.offset + computeFieldExtent f)) 0

/-- Spec-side field width (from the spec's invariant wording): scalar width
times `arrayLength` for scalars, `size` for string/bytes. -/
def specFieldWidth (f : FieldDef) : Nat :=
  if fieldTypeSize f.type = 0 then f.size else fieldTypeSize f.type * f.arrayLength

/-- Spec-side effective size (from the spec's wording):
`max(declaredSize, max over fields of offset + width)`. -/
def specEffectiveSize (D : DatasetDef) : Nat :=
  max D.size (D.fields.foldl (fun m f => max m (f.offset + specFieldWidth f)) 0)

/-- `FieldValue` (`std::variant` from `telegram_model.h`).  Signed integers are
carried as `Int` in the machine range, unsigned as `Nat`, and `float`/`double`
as their 32/64-bit object representations (the codec only `memcpy`s them).
Strings and byte vectors are byte lists. -/
inductive FieldValue
  | unset
  | vBool (b : Bool)
  | vInt8 (v : Int)
  | vUInt8 (v : Nat)
  | vInt16 (v : Int)
  | vUInt16 (v : Nat)
  | vInt32 (v : Int)
  | vUInt32 (v : Nat)
  | vFloat (bits : Nat)
  | vDouble (bits : Nat)
  | vString (bytes : List Nat)
  | vBytes (bytes : List Nat)
deriving DecidableEq, Repr

/-- Does the value's variant tag match the field type (the condition under
which `std::get` inside `encodeSingleValue` does not throw)? -/
def tagMatches : FieldType → FieldValue → Bool
  | FieldType.BOOL, FieldValue.vBool _ => true
  | FieldType.INT8, FieldValue.vInt8 _ => true
  | FieldType.UINT8, FieldValue.vUInt8 _ => true
  | FieldType.INT16, FieldValue.vInt16 _ => true
  | FieldType.UINT16, FieldValue.vUInt16 _ => true
  | FieldType.INT32, FieldValue.vInt32 _ => true
  | FieldType.UINT32, FieldValue.vUInt32 _ => true
  | FieldType.FLOAT, FieldValue.vFloat _ => true
  | FieldType.DOUBLE, FieldValue.vDouble _ => true
  | FieldType.STRING, FieldValue.vString _ => true
  | FieldType.BYTES, FieldValue.vBytes _ => true
  | _, _ => false

/-- `fieldWidth` from `trdp_engine.cpp`: scalar width times `arrayLength`;
for string/bytes the raw `size` (`0` stays `0`), with no array multiplier. -/
def fieldWidth (f : FieldDef) : Nat :=
  match f.type with
  | FieldType.BOOL | FieldType.INT8 | FieldType.UINT8 => 1 * f.arrayLength
  | FieldType.INT16 | FieldType.UINT16 => 2 * f.arrayLength
  | FieldType.INT32 | FieldType.UINT32 | FieldType.FLOAT => 4 * f.arrayLength
  | FieldType.DOUBLE => 8 * f.arrayLength
  | FieldType.STRING | FieldType.BYTES => f.size

/-- Two's-complement little-endian bytes of a signed value of byte width `w`
(what `writeLe<intN_t>` copies out of the integer object). -/
def toBytesLEInt (w : Nat) (v : Int) : List Nat :=
  toBytesLE w (v % (256 ^ w : Nat)).toNat

/-- Reinterpret an unsigned little-endian value of byte width `w` as a signed
integer (what `readLe<intN_t>` yields). -/
def asSigned (w n : Nat) : Int :=
  if n < 256 ^ w / 2 then (n : Int) else (n : Int) - (256 ^ w : Nat)

/-- Zero-pad (on the right) or truncate a byte list to exactly `n` bytes;
this is the `memcpy` + `memset`/zero-fill pattern used for strings and byte
arrays in `encodeSingleValue`. -/
def padTruncate (n : Nat) (bs : List Nat) : List Nat :=
  bs.take n ++ List.replicate (n - bs.length) 0

/-- `encodeSingleValue` from `trdp_engine.cpp`, acting on the `destSize`-byte
chunk of the buffer that starts at the field's offset.  Returns `none` exactly
when the C++ `std::get` would throw `std::bad_variant_access` (variant tag
does not match the field type).  Scalars overwrite only their own width at the
start of the chunk; strings and byte arrays overwrite the whole chunk. -/
def encodeSingleValue (f : FieldDef) (v : FieldValue) (chunk : List Nat) :
    Option (List Nat) :=
  if chunk.length < fieldWidth f then some chunk
  else
    let scalar := fun (bs : List Nat) => some (bs ++ chunk.drop bs.length)
    match f.type, v with
    | FieldType.BOOL, FieldValue.vBool b => scalar [if b then 1 else 0]
    | FieldType.INT8, FieldValue.vInt8 n => scalar (toBytesLEInt 1 n)
    | FieldType.UINT8, FieldValue.vUInt8 n => scalar (toBytesLE 1 n)
    | FieldType.INT16, FieldValue.vInt16 n => scalar (toBytesLEInt 2 n)
    | FieldType.UINT16, FieldValue.vUInt16 n => scalar (toBytesLE 2 n)
    | FieldType.INT32, FieldValue.vInt32 n => scalar (toBytesLEInt 4 n)
    | FieldType.UINT32, FieldValue.vUInt32 n => scalar (toBytesLE 4 n)
    | FieldType.FLOAT, FieldValue.vFloat bits => scalar (toBytesLE 4 bits)
    | FieldType.DOUBLE, FieldValue.vDouble bits => scalar (toBytesLE 8 bits)
    | FieldType.STRING, FieldValue.vString s => some (padTruncate chunk.length s)
    | FieldType.BYTES, FieldValue.vBytes bs => some (padTruncate chunk.length bs)
    | _, _ => none

/-- Splice `bs` into `buf` starting at byte `off` (`memcpy` into the buffer). -/
def writeAt (buf : List Nat) (off : Nat) (bs : List Nat) : List Nat :=
  buf.take off ++ bs ++ buf.drop (off + bs.length)

/-- The `len` bytes of `buf` starting at `off`. -/
def readAt (buf : List Nat) (off len : Nat) : List Nat :=
  (buf.drop off).take len

/-- The field mapping (`std::map<std::string, FieldValue>`). -/
abbrev FieldMap := List (String × FieldValue)

/-- Loop body of `encodeFields`: skip fields whose value is absent or unset
and fields that do not fit the buffer, otherwise encode into the field's
chunk; `none` when `encodeSingleValue` would throw. -/
def encodeStep (fields : FieldMap) (buf : List Nat) (f : FieldDef) :
    Option (List Nat) :=
  match alGet fields f.name with
  | none => some buf
  | some FieldValue.unset => some buf
  | some v =>
      if f.offset + fieldWidth f > buf.length then some buf
      else
        match encodeSingleValue f v (readAt buf f.offset (fieldWidth f)) with
        | none => none
        | some chunk => some (writeAt buf f.offset chunk)

/-- `encodeFields` from `trdp_engine.cpp`: walk the dataset's fields over a
zero-initialised buffer of the dataset's effective size; skip absent or unset
values and fields that do not fit; `none` when an encoded value's variant tag
mismatches its field type (C++ throws `std::bad_variant_access`). -/
def encodeFields (D : DatasetDef) (fields : FieldMap) : Option (List Nat) :=
  D.fields.foldlM (encodeStep fields) (List.replicate D.computeSize 0)

/-- `decodeSingleValue` from `trdp_engine.cpp`: `bytes` is the tail of the
payload starting at the field's offset (`remaining = bytes.length`). -/
def decodeSingleValue (f : FieldDef) (bytes : List Nat) : FieldValue :=
  if bytes.length < fieldWidth f then FieldValue.unset
  else
    match f.type with
    | FieldType.BOOL => FieldValue.vBool (bytes.getD 0 0 != 0)
    | FieldType.INT8 => FieldValue.vInt8 (asSigned 1 (fromBytesLE (bytes.take 1)))
    | FieldType.UINT8 => FieldValue.vUInt8 (fromBytesLE (bytes.take 1))
    | FieldType.INT16 => FieldValue.vInt16 (asSigned 2 (fromBytesLE (bytes.take 2)))
    | FieldType.UINT16 => FieldValue.vUInt16 (fromBytesLE (bytes.take 2))
    | FieldType.INT32 => FieldValue.vInt32 (asSigned 4 (fromBytesLE (bytes.take 4)))
    | FieldType.UINT32 => FieldValue.vUInt32 (fromBytesLE (bytes.take 4))
    | FieldType.FLOAT => FieldValue.vFloat (fromBytesLE (bytes.take 4))
    | FieldType.DOUBLE => FieldValue.vDouble (fromBytesLE (bytes.take 8))
    | FieldType.STRING =>
        FieldValue.vString
          (bytes.take (if f.size > 0 then min f.size bytes.length else bytes.length))
    | FieldType.BYTES =>
        FieldValue.vBytes
          (bytes.take (if f.size > 0 then min f.size bytes.length else bytes.length))

/-- `enum class Direction`. -/
inductive Direction
  | Tx | Rx
deriving DecidableEq, Repr

/-- `enum class TelegramType`. -/
inductive TelegramType
  | PD | MD
deriving DecidableEq, Repr

/-- `struct TelegramDef`.  `comId`, `name`, `direction`, `type` and
`datasetName` are the members declared in `telegram_model.h` under `src/`.

Modelled from the spec: the engine sources (`trdp_engine.cpp`) additionally
read `srcIp`, `destIp`, `srcPort`, `destPort`, `ttl`, `qos`, `trdpFlags`,
`cycle` (ms), `expectedReplies`, `replyTimeout` and `confirmTimeout` from
`TelegramDef`; the header declaring those members is not among the sources,
so they are added here with the types the spec's data model gives them
(durations as signed millisecond counts). -/
structure TelegramDef where
  comId : Nat := 0
  name : String := ""
  direction : Direction := Direction.Tx
  type : TelegramType := TelegramType.PD
  datasetName : String := ""
  srcIp : Nat := 0
  destIp : Nat := 0
  srcPort : Nat := 0
  destPort : Nat := 0
  ttl : Nat := 0
  qos : Nat := 0
  trdpFlags : Nat := 0
  cycle : Int := 0
  expectedReplies : Nat := 0
  replyTimeout : Int := 0
  confirmTimeout : Int := 0
deriving DecidableEq, Repr

/-- `class TelegramRuntime`: immutable dataset copy, wire buffer and field
mapping.  `rid` is a model-level tag for the identity of the
`shared_ptr<TelegramRuntime>` handle the registry hands out (C++ handle
identity is pointer identity, which a value model cannot observe directly). -/
structure TelegramRuntime where
  datasetDef : DatasetDef
  buffer : List Nat
  fieldValues : FieldMap
  rid : Nat := 0
deriving DecidableEq, Repr

/-- `TelegramRuntime::TelegramRuntime`: buffer sized by
`calculateInitialBufferSize` (= `computeSize`), one `emplace`d unset value per
dataset field. -/
def TelegramRuntime.create (dataset : DatasetDef) (rid : Nat) : TelegramRuntime :=
  { datasetDef := dataset
    buffer := List.replicate dataset.computeSize 0
    fieldValues :=
      dataset.fields.foldl (fun m f => alEmplace m f.name FieldValue.unset) []
    rid := rid }

/-- `TelegramRuntime::getFieldValue`. -/
def TelegramRuntime.getFieldValue (rt : TelegramRuntime) (n : String) :
    Option FieldValue :=
  alGet rt.fieldValues n

/-- `TelegramRuntime::snapshotFields`. -/
def TelegramRuntime.snapshotFields (rt : TelegramRuntime) : FieldMap :=
  rt.fieldValues

/-- `TelegramRuntime::setFieldValue`: updates only names already present;
returns whether the update happened. -/
def TelegramRuntime.setFieldValue (rt : TelegramRuntime) (n : String)
    (v : FieldValue) : TelegramRuntime × Bool :=
  match alGet rt.fieldValues n with
  | none => (rt, false)
  | some _ => ({ rt with fieldValues := alUpdate rt.fieldValues n v }, true)

/-- `TelegramRuntime::getBufferCopy`. -/
def TelegramRuntime.getBufferCopy (rt : TelegramRuntime) : List Nat :=
  rt.buffer

/-- `TelegramRuntime::overwriteBuffer`: replaces the buffer with `data`
verbatim (no length check). -/
def TelegramRuntime.overwriteBuffer (rt : TelegramRuntime) (data : List Nat) :
    TelegramRuntime :=
  { rt with buffer := data }

/-- `TelegramRuntime::bufferSize`. -/
def TelegramRuntime.bufferSize (rt : TelegramRuntime) : Nat :=
  rt.buffer.length

/-- `class TelegramRegistry`: datasets keyed by name, telegrams and runtimes
keyed by comId.  `nextRid` is the model-level allocator that mints distinct
identities for newly created shared runtime handles. -/
structure TelegramRegistry where
  datasets : List (String × DatasetDef) := []
  telegrams : List (Nat × TelegramDef) := []
  runtimes : List (Nat × TelegramRuntime) := []
  nextRid : Nat := 0
deriving DecidableEq, Repr, Inhabited

/-- `TelegramRegistry::registerDataset`: insert or replace by name. -/
def TelegramRegistry.registerDataset (st : TelegramRegistry) (d : DatasetDef) :
    TelegramRegistry :=
  { st with datasets := alSet st.datasets d.name d }

/-- `TelegramRegistry::registerTelegram`: `none` models the
`std::invalid_argument` thrown when the referenced dataset is absent;
otherwise insert or replace by comId. -/
def TelegramRegistry.registerTelegram (st : TelegramRegistry) (t : TelegramDef) :
    Option TelegramRegistry :=
  match alGet st.datasets t.datasetName with
  | none => none
  | some _ => some { st with telegrams := alSet st.telegrams t.comId t }

/-- `TelegramRegistry::clear`: drops datasets, telegrams and runtimes. -/
def TelegramRegistry.clear (st : TelegramRegistry) : TelegramRegistry :=
  { st with datasets := [], telegrams := [], runtimes := [] }

/-- `TelegramRegistry::getDatasetCopy`. -/
def TelegramRegistry.getDatasetCopy (st : TelegramRegistry) (n : String) :
    Option DatasetDef :=
  alGet st.datasets n

/-- `TelegramRegistry::getTelegramCopy`. -/
def TelegramRegistry.getTelegramCopy (st : TelegramRegistry) (c : Nat) :
    Option TelegramDef :=
  alGet st.telegrams c

/-- `TelegramRegistry::listTelegrams` (snapshot copies). -/
def TelegramRegistry.listTelegrams (st : TelegramRegistry) : List TelegramDef :=
  st.telegrams.map Prod.snd

/-- `TelegramRegistry::getOrCreateRuntime`: an existing runtime is returned
as-is; otherwise the runtime is created from the telegram's dataset and
cached; `none` when the telegram or its dataset is missing. -/
def TelegramRegistry.getOrCreateRuntime (st : TelegramRegistry) (comId : Nat) :
    Option TelegramRuntime × TelegramRegistry :=
  match alGet st.runtimes comId with
  | some rt => (some rt, st)
  | none =>
      match alGet st.telegrams comId with
      | none => (none, st)
      | some tg =>
          match alGet st.datasets tg.datasetName with
          | none => (none, st)
          | some ds =>
              let rt := TelegramRuntime.create ds st.nextRid
              (some rt,
                { st with
                    runtimes := alSet st.runtimes comId rt
                    nextRid := st.nextRid + 1 })

/-- Abstract result of the tinyxml2 parse in `loadFromTauXml`: the per-node
attribute extraction (names, aliases, fallbacks) is collapsed into the
dataset and telegram definitions the loader's two collection loops produce;
`none` models `LoadFile` failing or the document having no root element. -/
structure XmlDoc where
  datasets : List DatasetDef := []
  telegrams : List TelegramDef := []
deriving DecidableEq, Repr

/-- `loadFromTauXml` from `telegram_model.cpp`: on parse failure it returns
`false` before reaching `TelegramRegistry::instance().clear()`; on success it
clears the registry, registers every named dataset, and registers each
telegram, skipping (with a diagnostic) those whose dataset is unknown. -/
def loadFromTauXml (parsed : Option XmlDoc) (reg : TelegramRegistry) :
    Bool × TelegramRegistry :=
  match parsed with
  | none => (false, reg)
  | some doc =>
      let r0 := reg.clear
      let r1 := doc.datasets.foldl
        (fun r d => if d.name = "" then r else r.registerDataset d) r0
      let r2 := doc.telegrams.foldl
        (fun r t =>
          match r.registerTelegram t with
          | none => r
          | some r' => r') r1
      (true, r2)

/-- Registry pre-populated with dataset `A` and telegram 7 referencing it
(concrete example input). -/
def regAB : TelegramRegistry :=
  (TelegramRegistry.registerTelegram
      (TelegramRegistry.registerDataset {} { name := "A" })
      { comId := 7, datasetName := "A" }).getD {}

/-- Per-field success condition of the encoder: a field is harmless when its
value is absent or unset, when it does not fit the buffer (the encoder skips
it), or when its value's variant tag matches the field type. -/
def encodeFieldOk (V : FieldMap) (bufLen : Nat) (f : FieldDef) : Bool :=
  match alGet V f.name with
  | none => true
  | some FieldValue.unset => true
  | some v => decide (f.offset + fieldWidth f > bufLen) || tagMatches f.type v

/-- Two byte ranges do not overlap. -/
def rangesDisjoint (o1 l1 o2 l2 : Nat) : Prop :=
  o1 + l1 ≤ o2 ∨ o2 + l2 ≤ o1

instance (o1 l1 o2 l2 : Nat) : Decidable (rangesDisjoint o1 l1 o2 l2) := by
  unfold rangesDisjoint
  infer_instance

/-- The fields of a dataset occupy pairwise disjoint byte ranges. -/
def fieldsDisjoint (fields : List FieldDef) : Prop :=
  fields.Pairwise fun f g =>
    rangesDisjoint f.offset (fieldWidth f) g.offset (fieldWidth g)

instance (fields : List FieldDef) : Decidable (fieldsDisjoint fields) := by
  unfold fieldsDisjoint
  infer_instance

/-- The chunk `encodeSingleValue` produces for a matching-tag value over a
zero-filled chunk of the field's width: scalars followed by the zero tail,
strings and byte arrays truncated/zero-padded to the width. -/
def fieldChunk (f : FieldDef) (v : FieldValue) : List Nat :=
  match f.type, v with
  | FieldType.BOOL, FieldValue.vBool b =>
      (if b then 1 else 0) :: List.replicate (fieldWidth f - 1) 0
  | FieldType.INT8, FieldValue.vInt8 n =>
      toBytesLEInt 1 n ++ List.replicate (fieldWidth f - 1) 0
  | FieldType.UINT8, FieldValue.vUInt8 n =>
      toBytesLE 1 n ++ List.replicate (fieldWidth f - 1) 0
  | FieldType.INT16, FieldValue.vInt16 n =>
      toBytesLEInt 2 n ++ List.replicate (fieldWidth f - 2) 0
  | FieldType.UINT16, FieldValue.vUInt16 n =>
      toBytesLE 2 n ++ List.replicate (fieldWidth f - 2) 0
  | FieldType.INT32, FieldValue.vInt32 n =>
      toBytesLEInt 4 n ++ List.replicate (fieldWidth f - 4) 0
  | FieldType.UINT32, FieldValue.vUInt32 n =>
      toBytesLE 4 n ++ List.replicate (fieldWidth f - 4) 0
  | FieldType.FLOAT, FieldValue.vFloat bits =>
      toBytesLE 4 bits ++ List.replicate (fieldWidth f - 4) 0
  | FieldType.DOUBLE, FieldValue.vDouble bits =>
      toBytesLE 8 bits ++ List.replicate (fieldWidth f - 8) 0
  | FieldType.STRING, FieldValue.vString s => padTruncate (fieldWidth f) s
  | FieldType.BYTES, FieldValue.vBytes bs => padTruncate (fieldWidth f) bs
  | _, _ => []

/-- Machine-range well-formedness of a `FieldValue`: the C++ variant's
alternatives are machine types, so signed/unsigned integers lie in their
ranges, float/double bit patterns fit 32/64 bits, and string/byte-vector
elements are bytes. -/
def wfValue : FieldValue → Bool
  | FieldValue.unset => true
  | FieldValue.vBool _ => true
  | FieldValue.vInt8 v => decide (-128 ≤ v) && decide (v < 128)
  | FieldValue.vUInt8 v => decide (v < 256)
  | FieldValue.vInt16 v => decide (-32768 ≤ v) && decide (v < 32768)
  | FieldValue.vUInt16 v => decide (v < 65536)
  | FieldValue.vInt32 v => decide (-2147483648 ≤ v) && decide (v < 2147483648)
  | FieldValue.vUInt32 v => decide (v < 4294967296)
  | FieldValue.vFloat bits => decide (bits < 4294967296)
  | FieldValue.vDouble bits => decide (bits < 18446744073709551616)
  | FieldValue.vString s => s.all fun b => decide (b < 256)
  | FieldValue.vBytes s => s.all fun b => decide (b < 256)

/-- The normal form in which a round trip returns a value: scalars unchanged,
strings and byte arrays truncated and NUL-padded to exactly `size` bytes. -/
def normalizeValue (f : FieldDef) (v : FieldValue) : FieldValue :=
  match f.type, v with
  | FieldType.STRING, FieldValue.vString s => FieldValue.vString (padTruncate f.size s)
  | FieldType.BYTES, FieldValue.vBytes bs => FieldValue.vBytes (padTruncate f.size bs)
  | _, _ => v

/-- Loop body of `decodeFieldsIntoRuntime`: fields that do not fit the payload
are skipped (their previous value survives); fitting fields are decoded in
place via `setFieldValue`. -/
def decodeStep (payload : List Nat) (r : TelegramRuntime) (f : FieldDef) :
    TelegramRuntime :=
  if f.offset + fieldWidth f > payload.length then r
  else (r.setFieldValue f.name (decodeSingleValue f (payload.drop f.offset))).1

/-- `decodeFieldsIntoRuntime` from `trdp_engine.cpp`: overwrite the runtime's
buffer with the payload exactly as received, then decode each fitting field
into the field mapping. -/
def decodeFieldsIntoRuntime (dataset : DatasetDef) (rt : TelegramRuntime)
    (payload : List Nat) : TelegramRuntime :=
  dataset.fields.foldl (decodeStep payload) (rt.overwriteBuffer payload)

/-- The mapping assigns field `f` a machine-representable value whose variant
tag matches the field's declared type. -/
def fieldValOk (V : FieldMap) (f : FieldDef) : Bool :=
  match alGet V f.name with
  | some v => tagMatches f.type v && wfValue v
  | none => false

/-- Concrete dataset for the round-trip example: a UINT16 scalar at offset 0
and a 3-byte string at offset 2. -/
def roundtripDemoDataset : DatasetDef :=
  { name := "Dw", size := 0,
    fields := [{ name := "a", type := FieldType.UINT16, offset := 0 },
               { name := "s", type := FieldType.STRING, offset := 2,
                 size := 3 }] }

/-- Concrete matching-tag value mapping for `roundtripDemoDataset`. -/
def roundtripDemoValues : FieldMap :=
  [("a", FieldValue.vUInt16 258), ("s", FieldValue.vString [79, 75])]

/-- `TrdpEngine::EndpointHandle` (stack binding handles are kept abstract;
`tdef` is the C++ member `def`, renamed because `def` is a Lean keyword).
`nextSend` is a steady-clock millisecond count with `0` as the "unset"
sentinel, exactly as the C++ tests `time_since_epoch().count() == 0`. -/
structure EndpointHandle where
  tdef : TelegramDef
  runtime : TelegramRuntime
  pdHandleReady : Bool := false
  mdHandleReady : Bool := false
  cycle : Int := 0
  txCyclicActive : Bool := false
  nextSend : Nat := 0
  mdSessionId : List Nat := List.replicate 16 0
deriving DecidableEq, Repr

/-- `TrdpEngine::MdRequestState`; deadlines use `0` as the "no deadline"
sentinel (`time_since_epoch().count() == 0`). -/
structure MdRequestState where
  comId : Nat := 0
  expectedReplies : Nat := 0
  receivedReplies : Nat := 0
  sentAt : Nat := 0
  replyDeadline : Nat := 0
  confirmDeadline : Nat := 0
  confirmObserved : Bool := false
deriving DecidableEq, Repr

/-- The 16-byte opaque MD session identifier. -/
abbrev MdSessionKey := List Nat

/-- `mdRequestStates`, keyed by session id. -/
abbrev MdStates := List (MdSessionKey × MdRequestState)

/-- `TrdpEngine::trackMdRequest`: nothing is tracked when both
`expectedReplies` and `confirmTimeout` are zero; otherwise an
`MdRequestState` is stored under the session key, with `confirmObserved`
pre-satisfied when no confirm timeout was requested and deadlines set only
for positive timeouts. -/
def trackMdRequest (now : Nat) (states : MdStates) (sessionKey : MdSessionKey)
    (endpoint : EndpointHandle) : MdStates :=
  if endpoint.tdef.expectedReplies = 0 ∧ endpoint.tdef.confirmTimeout = 0 then
    states
  else
    alSet states sessionKey
      { comId := endpoint.tdef.comId
        expectedReplies := endpoint.tdef.expectedReplies
        receivedReplies := 0
        sentAt := now
        replyDeadline :=
          if endpoint.tdef.replyTimeout > 0 then
            now + endpoint.tdef.replyTimeout.toNat
          else 0
        confirmDeadline :=
          if endpoint.tdef.confirmTimeout > 0 then
            now + endpoint.tdef.confirmTimeout.toNat
          else 0
        confirmObserved := decide (endpoint.tdef.confirmTimeout = 0) }

/-- `TrdpEngine::publishPdBuffer`: fails when the PD binding is not ready,
or — with the stack available — when `tlp_put` fails (`pubOk` is the oracle
for that call's outcome; in stub mode the put is skipped). -/
def publishPdBuffer (stackAvailable : Bool) (pubOk : Bool)
    (endpoint : EndpointHandle) : Bool :=
  if !endpoint.pdHandleReady then false
  else if stackAvailable && !pubOk then false
  else true

/-- One endpoint's slice of `TrdpEngine::dispatchCyclicTransmissions` (the
per-endpoint states in the loop are independent of each other).  Returns the
updated endpoint and whether a cyclic publish was attempted (that is,
whether `publishPdBuffer` was invoked this tick). -/
def dispatchStep (stackAvailable : Bool) (now : Nat) (pubOk : Bool)
    (e : EndpointHandle) : EndpointHandle × Bool :=
  if e.tdef.type ≠ TelegramType.PD ∨ e.tdef.direction ≠ Direction.Tx then
    (e, false)
  else if ¬ e.txCyclicActive ∨ e.cycle ≤ 0 then (e, false)
  else if e.nextSend = 0 then ({ e with nextSend := now + e.cycle.toNat }, false)
  else if now < e.nextSend then (e, false)
  else if publishPdBuffer stackAvailable pubOk e then
    ({ e with nextSend := now + e.cycle.toNat }, true)
  else
    ({ e with txCyclicActive := false }, true)

/-- `mergeRuntimeFields`: the runtime's snapshot with the overrides written
over it (insert-or-assign, like `result[key] = value`). -/
def mergeRuntimeFields (runtime : TelegramRuntime) (overrides : FieldMap) :
    FieldMap :=
  overrides.foldl (fun m kv => alSet m kv.1 kv.2) runtime.snapshotFields

/-- The override loop at the top of `sendTxTelegram`:
`setFieldValue(name, value)` for every override (unknown names are ignored
by `setFieldValue`). -/
def applyOverrides (rt : TelegramRuntime) (overrides : FieldMap) :
    TelegramRuntime :=
  overrides.foldl (fun r kv => (r.setFieldValue kv.1 kv.2).1) rt

/-- Outcomes of the stack calls a single `sendTxTelegram` /
`dispatchCyclicTransmissions` step may make, plus the current time. -/
structure StackOracle where
  now : Nat := 0
  pubOk : Bool := true
  mdRequestOk : Bool := true
  sessionId : MdSessionKey := List.replicate 16 0
deriving DecidableEq, Repr

/-- `TrdpEngine::sendTxTelegram`, restricted to the endpoint `findEndpoint`
resolves (the map entries are independent; `found = false` models an unknown
comId).  `Except.error ()` models the `std::bad_variant_access` thrown out of
`encodeFields` for a mismatched override tag: the field values are already
updated at that point but the buffer is not.  On the MD path a failed
`tlm_request` returns `false` without tracking a session; on success the
returned session id is recorded and tracked.  On the PD path a successful
put with `cycle > 0` re-arms cyclic transmission. -/
def sendTxTelegram (stackAvailable : Bool) (o : StackOracle) (found : Bool)
    (e : EndpointHandle) (md : MdStates) (txFields : FieldMap) :
    Except Unit Bool × EndpointHandle × MdStates :=
  if !found then (Except.ok false, e, md)
  else if e.tdef.direction ≠ Direction.Tx then (Except.ok false, e, md)
  else
    let rt1 := applyOverrides e.runtime txFields
    let merged := mergeRuntimeFields rt1 txFields
    match encodeFields rt1.datasetDef merged with
    | none => (Except.error (), { e with runtime := rt1 }, md)
    | some buffer =>
        let e2 := { e with runtime := rt1.overwriteBuffer buffer }
        if e2.tdef.type = TelegramType.MD then
          if !e2.mdHandleReady then (Except.ok false, e2, md)
          else if stackAvailable then
            if !o.mdRequestOk then (Except.ok false, e2, md)
            else
              let e3 := { e2 with mdSessionId := o.sessionId }
              (Except.ok true, e3, trackMdRequest o.now md o.sessionId e3)
          else (Except.ok true, e2, md)
        else
          if publishPdBuffer stackAvailable o.pubOk e2 then
            if e2.cycle > 0 then
              (Except.ok true,
                { e2 with txCyclicActive := true,
                          nextSend := o.now + e2.cycle.toNat }, md)
            else (Except.ok true, e2, md)
          else (Except.ok false, e2, md)

deriving instance DecidableEq for Except

/-- Events a single TX endpoint sees: worker ticks (cyclic dispatch with the
publish outcome for this tick) and explicit `sendTxTelegram` calls. -/
inductive SchedEvent
  | tick (now : Nat) (pubOk : Bool)
  | send (o : StackOracle) (txFields : FieldMap)

/-- Run a list of scheduler events over one endpoint; returns the final
state, the number of cyclic publish attempts, and whether any explicit send
returned `true`. -/
def runSched (sa : Bool) (st : EndpointHandle × MdStates) :
    List SchedEvent → (EndpointHandle × MdStates) × Nat × Bool
  | [] => (st, 0, false)
  | SchedEvent.tick now pubOk :: evs =>
      match dispatchStep sa now pubOk st.1 with
      | (e', att) =>
          match runSched sa (e', st.2) evs with
          | (stf, n, s) => (stf, (if att then 1 else 0) + n, s)
  | SchedEvent.send o fm :: evs =>
      match sendTxTelegram sa o true st.1 st.2 fm with
      | (res, e', md') =>
          match runSched sa (e', md') evs with
          | (stf, n, s) => (stf, n, decide (res = Except.ok true) || s)

/-- Concrete active TX PD endpoint over the demo dataset. -/
def demoPdEndpoint : EndpointHandle :=
  { tdef := { comId := 1, direction := Direction.Tx, type := TelegramType.PD,
              datasetName := "Dw", cycle := 10 }
    runtime := TelegramRuntime.create roundtripDemoDataset 2
    pdHandleReady := true
    cycle := 10
    txCyclicActive := true
    nextSend := 5 }

/-- Concrete TX MD endpoint with `expectedReplies = 0` and
`confirmTimeout = 0`. -/
def demoMdEndpointZero : EndpointHandle :=
  { tdef := { comId := 3, direction := Direction.Tx, type := TelegramType.MD,
              datasetName := "Dw", expectedReplies := 0, confirmTimeout := 0 }
    runtime := TelegramRuntime.create roundtripDemoDataset 3
    mdHandleReady := true }

/-- Concrete TX MD endpoint expecting 2 replies within 500 ms, no confirm. -/
def demoMdEndpointTwo : EndpointHandle :=
  { tdef := { comId := 3, direction := Direction.Tx, type := TelegramType.MD,
              datasetName := "Dw", expectedReplies := 2, replyTimeout := 500,
              confirmTimeout := 0 }
    runtime := TelegramRuntime.create roundtripDemoDataset 4
    mdHandleReady := true }

/-- `TrdpEngine::DnrMode`. -/
inductive DnrMode
  | CommonThread | DedicatedThread
deriving DecidableEq, Repr

/-- `TrdpEngine::CacheConfig` (TTL in ms). -/
structure CacheConfig where
  enableUriCache : Bool := true
  uriCacheTtl : Int := 30000
  uriCacheEntries : Nat := 128
deriving DecidableEq, Repr

/-- `TrdpEngine::EcspConfig` (durations in ms). -/
structure EcspConfig where
  enable : Bool := false
  pollInterval : Int := 1000
  confirmTimeout : Int := 5000
deriving DecidableEq, Repr

/-- `TrdpEngine::TrdpConfig`. -/
structure TrdpConfig where
  rxInterface : String := ""
  txInterface : String := ""
  hostsFile : String := ""
  enableDnr : Bool := false
  dnrMode : DnrMode := DnrMode.CommonThread
  cacheConfig : CacheConfig := {}
  ecspConfig : EcspConfig := {}
  idleInterval : Int := 50
deriving DecidableEq, Repr

/-- `TrdpEngine::CacheEntry::Payload` (`std::variant`). -/
inductive CachePayload
  | ip (v : Nat)
  | uri (s : String)
  | ids (a b c : Nat)
deriving DecidableEq, Repr

/-- `TrdpEngine::CacheEntry` (absolute expiry in steady-clock ms). -/
structure CacheEntry where
  expiresAt : Nat := 0
  payload : CachePayload := CachePayload.ip 0
deriving DecidableEq, Repr

/-- The expired-entry sweep inside `trimCaches`: drop entries whose
`expiresAt` has been reached. -/
def eraseExpired (now : Nat) (cache : List (κ × CacheEntry)) :
    List (κ × CacheEntry) :=
  cache.filter fun kv => decide (now < kv.2.expiresAt)

/-- The smallest key of an association list (the entry `erase(begin())`
removes from a `std::map`). -/
def minKey (lt : κ → κ → Bool) : List (κ × ν) → Option κ
  | [] => none
  | (k, _) :: rest =>
      match minKey lt rest with
      | none => some k
      | some m => if lt m k then some m else some k

/-- Remove the first binding of a key. -/
def alEraseFirst [DecidableEq κ] (l : List (κ × ν)) (k : κ) : List (κ × ν) :=
  match l with
  | [] => []
  | (k', v) :: rest => if k = k' then rest else (k', v) :: alEraseFirst rest k

/-- One `cache.erase(cache.begin())` step. -/
def eraseMinKey [DecidableEq κ] (lt : κ → κ → Bool) (l : List (κ × ν)) :
    List (κ × ν) :=
  match minKey lt l with
  | none => l
  | some k => alEraseFirst l k

/-- The `while (cache.size() > limit) cache.erase(cache.begin())` loop of
`updateCacheLimits`; each iteration removes exactly one entry, so
`l.length` iterations always suffice (the fuel only makes termination
structural). -/
def enforceLimitGo [DecidableEq κ] (lt : κ → κ → Bool) (cap : Nat) :
    Nat → List (κ × ν) → List (κ × ν)
  | 0, l => l
  | fuel + 1, l =>
      if l.length ≤ cap then l else enforceLimitGo lt cap fuel (eraseMinKey lt l)

/-- `updateCacheLimits` for one cache. -/
def enforceLimit [DecidableEq κ] (lt : κ → κ → Bool) (cap : Nat)
    (l : List (κ × ν)) : List (κ × ν) :=
  enforceLimitGo lt cap l.length l

/-- Key order used by `std::map<std::string, …>`. -/
def ltString (a b : String) : Bool := decide (a < b)

/-- Key order used by `std::map<std::uint32_t, …>`. -/
def ltNat (a b : Nat) : Bool := decide (a < b)

/-- `class TrdpEngine`'s state (`trdp_engine.h`).  `lastEcspCtrl` models the
parameters last pushed through `tau_setEcspCtrl`; `workerGeneration` counts
worker-thread launches so that "no worker restart" is observable.  Stack
session handles and the heap are external and not part of the state. -/
structure TrdpEngine where
  running : Bool := false
  stopRequested : Bool := false
  pdSessionInitialised : Bool := false
  mdSessionInitialised : Bool := false
  stackAvailable : Bool := false
  etbTopoCounter : Nat := 0
  opTrainTopoCounter : Nat := 0
  topologyCountersDirty : Bool := false
  config : TrdpConfig := {}
  endpoints : List (Nat × EndpointHandle) := []
  mdRequestStates : MdStates := []
  ecspInitialised : Bool := false
  lastEcspCtrl : Option (Bool × Int) := none
  uriCache : List (String × CacheEntry) := []
  ipCache : List (Nat × CacheEntry) := []
  labelCache : List (String × CacheEntry) := []
  workerGeneration : Nat := 0
deriving DecidableEq, Repr

/-- `TrdpEngine::markTopologyChanged`: bump both counters, set the dirty
flag. -/
def TrdpEngine.markTopologyChanged (e : TrdpEngine) : TrdpEngine :=
  { e with
      etbTopoCounter := e.etbTopoCounter + 1
      opTrainTopoCounter := e.opTrainTopoCounter + 1
      topologyCountersDirty := true }

/-- `TrdpEngine::trimCaches`: with the URI cache disabled all three caches
are cleared; otherwise expired entries are dropped and then
`updateCacheLimits` enforces the size cap on each cache. -/
def TrdpEngine.trimCaches (now : Nat) (e : TrdpEngine) : TrdpEngine :=
  if !e.config.cacheConfig.enableUriCache then
    { e with uriCache := [], ipCache := [], labelCache := [] }
  else
    { e with
        uriCache := enforceLimit ltString e.config.cacheConfig.uriCacheEntries
          (eraseExpired now e.uriCache)
        ipCache := enforceLimit ltNat e.config.cacheConfig.uriCacheEntries
          (eraseExpired now e.ipCache)
        labelCache := enforceLimit ltString e.config.cacheConfig.uriCacheEntries
          (eraseExpired now e.labelCache) }

/-- `TrdpEngine::updateEcspControl`: a no-op unless ECSP was initialised;
otherwise pushes `{enable, confirmTimeout}` to `tau_setEcspCtrl`. -/
def TrdpEngine.updateEcspControl (e : TrdpEngine) : TrdpEngine :=
  if !e.ecspInitialised then e
  else
    { e with
        lastEcspCtrl :=
          some (e.config.ecspConfig.enable, e.config.ecspConfig.confirmTimeout) }

/-- The `configChanged` disjunction at the top of `TrdpEngine::start`
(everything except the leading `!running.load()`). -/
def configChangedCheck (c cfg : TrdpConfig) : Bool :=
  decide (c.rxInterface ≠ cfg.rxInterface) ||
    decide (c.txInterface ≠ cfg.txInterface) ||
    decide (c.hostsFile ≠ cfg.hostsFile) ||
    decide (c.enableDnr ≠ cfg.enableDnr) ||
    decide (c.dnrMode ≠ cfg.dnrMode) ||
    decide (c.cacheConfig.enableUriCache ≠ cfg.cacheConfig.enableUriCache) ||
    decide (c.cacheConfig.uriCacheTtl ≠ cfg.cacheConfig.uriCacheTtl) ||
    decide (c.cacheConfig.uriCacheEntries ≠ cfg.cacheConfig.uriCacheEntries) ||
    decide (c.ecspConfig.enable ≠ cfg.ecspConfig.enable) ||
    decide (c.ecspConfig.pollInterval ≠ cfg.ecspConfig.pollInterval) ||
    decide (c.ecspConfig.confirmTimeout ≠ cfg.ecspConfig.confirmTimeout) ||
    decide (c.idleInterval ≠ cfg.idleInterval)

/-- `TrdpEngine::teardownTrdpStack` (the session handles themselves are
external): both session-initialised flags end up false. -/
def teardownTrdpStack (e : TrdpEngine) : TrdpEngine :=
  if !e.pdSessionInitialised && !e.mdSessionInitialised then e
  else { e with pdSessionInitialised := false, mdSessionInitialised := false,
                ecspInitialised := e.stackAvailable = false && e.ecspInitialised }

/-- External outcomes of a cold `start`: the registry bootstrap, the stack
initialisation (which in stub mode marks both sessions ready), and the
endpoint map `buildEndpoints` produces. -/
structure StartOracle where
  now : Nat := 0
  stackPresent : Bool := false
  bootstrapOk : Bool := true
  stackInitOk : Bool := true
  builtEndpoints : List (Nat × EndpointHandle) := []
deriving Repr

/-- `TrdpEngine::start(cfg)`.  While running with a changed configuration it
reapplies in place: store the config, mark topology changed, trim caches,
update ECSP control — no teardown, no endpoint rebuild, no worker restart.
While running with an unchanged configuration it is a pure no-op.  The cold
branch stores the config, bumps topology if changed, and either fails (on
bootstrap/stack failure, tearing the stack down) or installs the built
endpoints, marks both sessions ready, sets `running` and launches the worker
(one `workerGeneration` bump). -/
def TrdpEngine.start (o : StartOracle) (cfg : TrdpConfig) (e : TrdpEngine) :
    Bool × TrdpEngine :=
  let configChanged := !e.running || configChangedCheck e.config cfg
  if e.running then
    if configChanged then
      (true,
        TrdpEngine.updateEcspControl
          (TrdpEngine.trimCaches o.now
            (TrdpEngine.markTopologyChanged { e with config := cfg })))
    else (true, e)
  else
    let e1 := { e with config := cfg }
    let e2 := if configChanged then e1.markTopologyChanged else e1
    let e3 := { e2 with stackAvailable := o.stackPresent }
    if !o.bootstrapOk then (false, e3)
    else if !o.stackInitOk then (false, teardownTrdpStack e3)
    else
      (true,
        { e3 with
            pdSessionInitialised := true
            mdSessionInitialised := true
            endpoints := o.builtEndpoints
            stopRequested := false
            running := true
            workerGeneration := e3.workerGeneration + 1 })

def demoFailingPdEndpoint : EndpointHandle :=
  { tdef := { comId := 9, direction := Direction.Tx, type := TelegramType.PD,
              datasetName := "Dw" }
    runtime := TelegramRuntime.create roundtripDemoDataset 6
    pdHandleReady := false }

theorem alGet_alSet [DecidableEq κ] (l : List (κ × ν)) (k : κ) (v : ν) :
    alGet (alSet l k v) k = some v := by
  induction l with
  | nil => simp [alGet, alSet]
  | cons hd tl ih =>
      obtain ⟨k', v'⟩ := hd
      by_cases h : k = k' <;> simp [alGet, alSet, h, ih]

theorem alGet_alSet_ne [DecidableEq κ] (l : List (κ × ν)) (k k' : κ) (v : ν)
    (h : k' ≠ k) : alGet (alSet l k v) k' = alGet l k' := by
  induction l with
  | nil => simp [alGet, alSet, h]
  | cons hd tl ih =>
      obtain ⟨k0, v0⟩ := hd
      by_cases h0 : k = k0
      · subst h0; simp [alGet, alSet, h]
      · by_cases h1 : k' = k0 <;> simp [alGet, alSet, h0, h1, ih]

theorem alGet_alUpdate [DecidableEq κ] (l : List (κ × ν)) (k : κ) (v : ν) :
    alGet (alUpdate l k v) k = if (alGet l k).isSome then some v else none := by
  induction l with
  | nil => simp [alGet, alUpdate]
  | cons hd tl ih =>
      obtain ⟨k', v'⟩ := hd
      by_cases h : k = k' <;> simp [alGet, alUpdate, h, ih]

theorem alGet_alUpdate_ne [DecidableEq κ] (l : List (κ × ν)) (k k' : κ) (v : ν)
    (h : k' ≠ k) : alGet (alUpdate l k v) k' = alGet l k' := by
  induction l with
  | nil => simp [alGet, alUpdate]
  | cons hd tl ih =>
      obtain ⟨k0, v0⟩ := hd
      by_cases h0 : k = k0
      · subst h0; simp [alGet, alUpdate, h]
      · by_cases h1 : k' = k0 <;> simp [alGet, alUpdate, h0, h1, ih]

theorem toBytesLE_length (w v : Nat) : (toBytesLE w v).length = w := by
  simp [toBytesLE]

theorem toBytesLE_succ (w v : Nat) :
    toBytesLE (w + 1) v = v % 256 :: toBytesLE w (v / 256) := by
  simp only [toBytesLE, List.range_succ_eq_map, List.map_cons, List.map_map]
  congr 1
  · simp
  · apply List.map_congr_left
    intro i _
    simp only [Function.comp_apply]
    rw [Nat.div_div_eq_div_mul, pow_succ']

theorem fromBytesLE_toBytesLE (w v : Nat) :
    fromBytesLE (toBytesLE w v) = v % 256 ^ w := by
  induction w generalizing v with
  | zero => simp [toBytesLE, fromBytesLE, Nat.mod_one]
  | succ n ih =>
      rw [toBytesLE_succ]
      simp only [fromBytesLE, ih]
      rw [pow_succ', Nat.mod_mul]

theorem foldl_max_ge_init (l : List FieldDef) (g : FieldDef → Nat) (a : Nat) :
    a ≤ l.foldl (fun m f => max m (g f)) a := by
  induction l generalizing a with
  | nil => simp
  | cons hd tl ih => exact le_trans (le_max_left a (g hd)) (ih (max a (g hd)))

theorem foldl_max_le (l : List FieldDef) (g : FieldDef → Nat) (a c : Nat)
    (ha : a ≤ c) (hl : ∀ f ∈ l, g f ≤ c) :
    l.foldl (fun m f => max m (g f)) a ≤ c := by
  induction l generalizing a with
  | nil => simpa using ha
  | cons hd tl ih =>
      simp only [List.foldl_cons]
      exact ih (max a (g hd)) (max_le ha (hl hd (List.mem_cons_self hd tl)))
        (fun f hf => hl f (List.mem_cons_of_mem hd hf))

theorem foldl_max_mem_le (l : List FieldDef) (g : FieldDef → Nat) (a : Nat)
    (f : FieldDef) (hf : f ∈ l) :
    g f ≤ l.foldl (fun m f => max m (g f)) a := by
  induction l generalizing a with
  | nil => cases hf
  | cons hd tl ih =>
      rcases List.mem_cons.mp hf with h | h
      · subst h
        exact le_trans (le_max_right a (g f)) (foldl_max_ge_init tl g (max a (g f)))
      · exact ih h (a := max a (g hd))

theorem fieldMaxExtent_le_iff (D : DatasetDef) (c : Nat) :
    fieldMaxExtent D ≤ c ↔ ∀ f ∈ D.fields, f.offset + computeFieldExtent f ≤ c := by
  constructor
  · intro h f hf
    exact le_trans (foldl_max_mem_le D.fields (fun f => f.offset + computeFieldExtent f) 0 f hf) h
  · intro h
    exact foldl_max_le D.fields (fun f => f.offset + computeFieldExtent f) 0 c (Nat.zero_le c) h

theorem padTruncate_length (n : Nat) (bs : List Nat) :
    (padTruncate n bs).length = n := by
  simp [padTruncate]
  omega

/-- C1 (amended): `DatasetDef::computeSize` agrees with the effective-size
formula `max(declaredSize, max over fields of offset + extent)` exactly when
the declared size is zero or every field's `offset + extent` fits within the
declared size.  When the declared size is non-zero, `computeSize` returns it
unconditionally, ignoring fields that extend past it (the extent of a
string/bytes field is `max(1, size) * max(1, arrayLength)`). -/
theorem computeSize_eq_max_formula_iff (D : DatasetDef) :
    D.computeSize = max D.size (fieldMaxExtent D) ↔
      (D.size = 0 ∨ ∀ f ∈ D.fields, f.offset + computeFieldExtent f ≤ D.size) := by
  by_cases h : D.size > 0
  · have hsz : D.computeSize = D.size := by
      unfold DatasetDef.computeSize
      simp [h]
    rw [hsz]
    have h0 : ¬ D.size = 0 := by omega
    simp only [h0, false_or]
    rw [← fieldMaxExtent_le_iff]
    constructor
    · intro he
      have hle := le_max_right D.size (fieldMaxExtent D)
      omega
    · intro hle
      exact (max_eq_left hle).symm
  · have hz : D.size = 0 := by omega
    have hsz : D.computeSize = fieldMaxExtent D := by
      unfold DatasetDef.computeSize fieldMaxExtent
      simp [h]
    rw [hsz, hz]
    simp

/-- C1 counterexample: for the dataset with declared size 1 and a single
UINT32 field at offset 0, `computeSize` returns the declared size 1, whereas
the spec's `max(declaredSize, offset + width)` formula gives 4. -/
theorem computeSize_ignores_fields_cex :
    DatasetDef.computeSize
        { name := "D0", size := 1,
          fields := [{ name := "f", type := FieldType.UINT32 }] } = 1 ∧
      specEffectiveSize
        { name := "D0", size := 1,
          fields := [{ name := "f", type := FieldType.UINT32 }] } = 4 ∧
      (1 : Nat) ≠ 4 := by
  decide

/-- C2 (amended): a failed reload (`loadFromTauXml` on a path whose XML cannot
be loaded or has no root element) returns `false` and leaves the registry in
its prior state — the `clear()` happens only after the document has parsed —
so all datasets, telegrams and runtimes registered before the failed reload
remain observable via `getDatasetCopy`, `getTelegramCopy`, `listTelegrams`
and `getOrCreateRuntime`. -/
theorem loadFromTauXml_failed_reload (reg : TelegramRegistry) (n : String)
    (c : Nat) :
    (loadFromTauXml none reg).1 = false ∧
      (loadFromTauXml none reg).2 = reg ∧
      TelegramRegistry.getDatasetCopy (loadFromTauXml none reg).2 n =
        reg.getDatasetCopy n ∧
      TelegramRegistry.getTelegramCopy (loadFromTauXml none reg).2 c =
        reg.getTelegramCopy c ∧
      TelegramRegistry.listTelegrams (loadFromTauXml none reg).2 =
        reg.listTelegrams ∧
      TelegramRegistry.getOrCreateRuntime (loadFromTauXml none reg).2 c =
        reg.getOrCreateRuntime c := by
  refine ⟨rfl, rfl, rfl, rfl, rfl, rfl⟩

/-- C2 counterexample: starting from a registry holding dataset `A` and
telegram 7, a failed reload returns `false` yet the dataset and the telegram
are still observable — the registry is not left empty. -/
theorem loadFromTauXml_failed_reload_cex :
    (loadFromTauXml none
        (TelegramRegistry.registerTelegram
            (TelegramRegistry.registerDataset {} { name := "A" })
            { comId := 7, datasetName := "A" }).get!).1 = false ∧
      TelegramRegistry.getDatasetCopy
        (loadFromTauXml none
          (TelegramRegistry.registerTelegram
              (TelegramRegistry.registerDataset {} { name := "A" })
              { comId := 7, datasetName := "A" }).get!).2 "A" =
        some { name := "A" } ∧
      TelegramRegistry.getTelegramCopy
        (loadFromTauXml none
          (TelegramRegistry.registerTelegram
              (TelegramRegistry.registerDataset {} { name := "A" })
              { comId := 7, datasetName := "A" }).get!).2 7 =
        some { comId := 7, datasetName := "A" } := by
  decide

theorem getOrCreateRuntime_hit (st : TelegramRegistry) (comId : Nat)
    (rt : TelegramRuntime) (h : alGet st.runtimes comId = some rt) :
    st.getOrCreateRuntime comId = (some rt, st) := by
  unfold TelegramRegistry.getOrCreateRuntime
  rw [h]

theorem getOrCreateRuntime_some_cached (st : TelegramRegistry) (comId : Nat)
    (rt : TelegramRuntime) (st' : TelegramRegistry)
    (h : st.getOrCreateRuntime comId = (some rt, st')) :
    alGet st'.runtimes comId = some rt := by
  unfold TelegramRegistry.getOrCreateRuntime at h
  cases h1 : alGet st.runtimes comId with
  | some rt0 =>
      simp only [h1, Prod.mk.injEq, Option.some.injEq] at h
      obtain ⟨h2, h3⟩ := h
      subst h3
      rw [h1, h2]
  | none =>
      simp only [h1] at h
      cases h2 : alGet st.telegrams comId with
      | none => simp [h2] at h
      | some tg =>
          simp only [h2] at h
          cases h3 : alGet st.datasets tg.datasetName with
          | none => simp [h3] at h
          | some ds =>
              simp only [h3, Prod.mk.injEq, Option.some.injEq] at h
              obtain ⟨h4, h5⟩ := h
              rw [← h5]
              simp only
              rw [← h4]
              exact alGet_alSet st.runtimes comId _

theorem getOrCreateRuntime_none_frame (st : TelegramRegistry) (comId : Nat)
    (st' : TelegramRegistry)
    (h : st.getOrCreateRuntime comId = (none, st')) : st' = st := by
  unfold TelegramRegistry.getOrCreateRuntime at h
  cases h1 : alGet st.runtimes comId with
  | some rt0 => simp [h1] at h
  | none =>
      simp only [h1] at h
      cases h2 : alGet st.telegrams comId with
      | none => simp only [h2, Prod.mk.injEq, true_and] at h; exact h.symm
      | some tg =>
          simp only [h2] at h
          cases h3 : alGet st.datasets tg.datasetName with
          | none => simp only [h3, Prod.mk.injEq, true_and] at h; exact h.symm
          | some ds => simp [h3] at h

/-- C9: `getOrCreateRuntime` is idempotent.  A second call with the same comId
returns the very same runtime handle and leaves the registry untouched; the
cached handle survives `registerDataset` / `registerTelegram` replacing the
underlying definitions in between; and the call returns nothing (changing no
state) when the telegram, or the dataset it references, is unregistered. -/
theorem getOrCreateRuntime_idempotent (st : TelegramRegistry) (comId : Nat) :
    (TelegramRegistry.getOrCreateRuntime
        (st.getOrCreateRuntime comId).2 comId = st.getOrCreateRuntime comId) ∧
      (∀ d : DatasetDef, ∀ rt : TelegramRuntime,
        (st.getOrCreateRuntime comId).1 = some rt →
          (TelegramRegistry.getOrCreateRuntime
              (TelegramRegistry.registerDataset
                (st.getOrCreateRuntime comId).2 d) comId).1 = some rt) ∧
      (∀ t : TelegramDef, ∀ rt : TelegramRuntime, ∀ st' : TelegramRegistry,
        (st.getOrCreateRuntime comId).1 = some rt →
          TelegramRegistry.registerTelegram (st.getOrCreateRuntime comId).2 t =
            some st' →
          (st'.getOrCreateRuntime comId).1 = some rt) ∧
      (alGet st.runtimes comId = none → alGet st.telegrams comId = none →
        st.getOrCreateRuntime comId = (none, st)) ∧
      (∀ tg : TelegramDef, alGet st.runtimes comId = none →
        alGet st.telegrams comId = some tg →
        alGet st.datasets tg.datasetName = none →
        st.getOrCreateRuntime comId = (none, st)) := by
  refine ⟨?_, ?_, ?_, ?_, ?_⟩
  · cases hres : st.getOrCreateRuntime comId with
    | mk res st' =>
        cases res with
        | some rt =>
            have hcache := getOrCreateRuntime_some_cached st comId rt st' hres
            exact getOrCreateRuntime_hit st' comId rt hcache
        | none =>
            have hframe := getOrCreateRuntime_none_frame st comId st' hres
            subst hframe
            exact hres
  · intro d rt hrt
    cases hres : st.getOrCreateRuntime comId with
    | mk res st' =>
        rw [hres] at hrt
        simp only at hrt
        subst hrt
        have hcache := getOrCreateRuntime_some_cached st comId rt st' hres
        have hcache' : alGet (TelegramRegistry.registerDataset st' d).runtimes comId =
            some rt := hcache
        show ((TelegramRegistry.registerDataset st' d).getOrCreateRuntime comId).1 =
          some rt
        rw [getOrCreateRuntime_hit _ comId rt hcache']
  · intro t rt st'' hrt hreg
    cases hres : st.getOrCreateRuntime comId with
    | mk res st' =>
        rw [hres] at hrt hreg
        simp only at hrt hreg
        subst hrt
        have hcache := getOrCreateRuntime_some_cached st comId rt st' hres
        unfold TelegramRegistry.registerTelegram at hreg
        cases h1 : alGet st'.datasets t.datasetName with
        | none => simp [h1] at hreg
        | some _ =>
            simp only [h1, Option.some.injEq] at hreg
            subst hreg
            have hcache2 : alGet
                ({ st' with telegrams := alSet st'.telegrams t.comId t } :
                  TelegramRegistry).runtimes comId = some rt := hcache
            rw [getOrCreateRuntime_hit _ comId rt hcache2]
  · intro h1 h2
    unfold TelegramRegistry.getOrCreateRuntime
    simp [h1, h2]
  · intro tg h1 h2 h3
    unfold TelegramRegistry.getOrCreateRuntime
    simp [h1, h2, h3]

/-- C9 witness: on a concrete registry the cached handle survives a
`registerDataset` that replaces dataset `A`. -/
theorem getOrCreateRuntime_idempotent_witness :
    (TelegramRegistry.getOrCreateRuntime
        (TelegramRegistry.registerDataset
          (regAB.getOrCreateRuntime 7).2 { name := "A", size := 9 }) 7).1 =
      some (TelegramRuntime.create { name := "A" } 0) := by
  exact (getOrCreateRuntime_idempotent regAB 7).2.1 { name := "A", size := 9 }
    (TelegramRuntime.create { name := "A" } 0) (by decide)

/-! ### Buffer splice lemmas -/

theorem readAt_length (buf : List Nat) (off len : Nat) :
    (readAt buf off len).length = min len (buf.length - off) := by
  simp [readAt]

theorem readAt_length_of_fit (buf : List Nat) (off len : Nat)
    (h : off + len ≤ buf.length) : (readAt buf off len).length = len := by
  rw [readAt_length]
  omega

theorem writeAt_length (buf : List Nat) (off : Nat) (bs : List Nat)
    (h : off + bs.length ≤ buf.length) :
    (writeAt buf off bs).length = buf.length := by
  simp [writeAt]
  omega

theorem take_writeAt_eq (buf : List Nat) (off : Nat) (bs : List Nat)
    (h : off ≤ buf.length) :
    (writeAt buf off bs).take off = buf.take off := by
  unfold writeAt
  rw [List.append_assoc]
  have h1 : (buf.take off).length = off := by simp; omega
  rw [List.take_append_of_le_length (le_of_eq h1.symm)]
  exact List.take_of_length_le (le_of_eq h1)

theorem drop_writeAt_eq (buf : List Nat) (off : Nat) (bs : List Nat)
    (h : off + bs.length ≤ buf.length) :
    (writeAt buf off bs).drop (off + bs.length) = buf.drop (off + bs.length) := by
  unfold writeAt
  have h1 : (buf.take off ++ bs).length = off + bs.length := by simp; omega
  exact List.drop_left' h1

theorem readAt_writeAt_same (buf : List Nat) (off : Nat) (bs : List Nat)
    (h : off + bs.length ≤ buf.length) :
    readAt (writeAt buf off bs) off bs.length = bs := by
  unfold readAt writeAt
  rw [List.append_assoc]
  have h1 : (buf.take off).length = off := by simp; omega
  rw [List.drop_left' h1]
  exact List.take_left' rfl

theorem readAt_writeAt_before (buf : List Nat) (off : Nat) (bs : List Nat)
    (off2 len2 : Nat) (h : off2 + len2 ≤ off) (hfit : off ≤ buf.length) :
    readAt (writeAt buf off bs) off2 len2 = readAt buf off2 len2 := by
  unfold readAt writeAt
  rw [List.append_assoc]
  have h1 : (buf.take off).length = off := by simp; omega
  rw [List.drop_append_eq_append_drop]
  have h2 : len2 ≤ ((buf.take off).drop off2).length := by
    simp
    omega
  rw [List.take_append_of_le_length h2]
  rw [List.drop_take]
  rw [List.take_take]
  congr 1
  omega

theorem readAt_writeAt_after (buf : List Nat) (off : Nat) (bs : List Nat)
    (off2 len2 : Nat) (h : off + bs.length ≤ off2) (hfit : off ≤ buf.length) :
    readAt (writeAt buf off bs) off2 len2 = readAt buf off2 len2 := by
  unfold readAt writeAt
  have h1 : (buf.take off ++ bs).length = off + bs.length := by
    simp
    omega
  rw [List.drop_append_eq_append_drop]
  have h2 : (buf.take off ++ bs).drop off2 = [] := by
    apply List.drop_eq_nil_of_le
    omega
  rw [h2, List.nil_append, List.drop_drop, h1]
  congr 2
  omega

/-! ### Encoder totality -/

theorem toBytesLEInt_length (w : Nat) (v : Int) : (toBytesLEInt w v).length = w := by
  simp [toBytesLEInt, toBytesLE_length]

theorem scalar_append_length (bs chunk : List Nat) (h : bs.length ≤ chunk.length) :
    (bs ++ chunk.drop bs.length).length = chunk.length := by
  simp
  omega

theorem encodeSingleValue_isSome_eq (f : FieldDef) (v : FieldValue)
    (chunk : List Nat) (hlen : chunk.length = fieldWidth f) :
    (encodeSingleValue f v chunk).isSome = tagMatches f.type v := by
  unfold encodeSingleValue
  rw [hlen]
  simp only [lt_self_iff_false, if_false]
  cases f.type <;> cases v <;> simp [tagMatches]

theorem encodeSingleValue_length (f : FieldDef) (v : FieldValue)
    (chunk c' : List Nat) (harr : 1 ≤ f.arrayLength)
    (h : encodeSingleValue f v chunk = some c') : c'.length = chunk.length := by
  obtain ⟨nm, ty, off, sz, bo, al⟩ := f
  have harr' : 1 ≤ al := harr
  unfold encodeSingleValue at h
  by_cases hg : chunk.length < fieldWidth ⟨nm, ty, off, sz, bo, al⟩
  · rw [if_pos hg] at h
    cases h
    rfl
  · rw [if_neg hg] at h
    cases ty <;> cases v <;> cases h <;>
      first
      | rw [padTruncate_length]
      | (apply scalar_append_length
         simp only [fieldWidth] at hg
         simp only [toBytesLE_length, toBytesLEInt_length, List.length_cons,
           List.length_nil]
         omega)

theorem encodeStep_some_length (V : FieldMap) (buf : List Nat) (f : FieldDef)
    (b' : List Nat) (harr : 1 ≤ f.arrayLength)
    (h : encodeStep V buf f = some b') : b'.length = buf.length := by
  unfold encodeStep at h
  split at h
  · cases h
    rfl
  · cases h
    rfl
  · rename_i v hne hv
    split at h
    · cases h
      rfl
    · rename_i hb
      split at h
      · cases h
      · rename_i chunk hc
        cases h
        have hrd : (readAt buf f.offset (fieldWidth f)).length = fieldWidth f := by
          apply readAt_length_of_fit
          omega
        have hlen : chunk.length = fieldWidth f := by
          have hcl := encodeSingleValue_length f v _ chunk harr hc
          omega
        rw [writeAt_length]
        omega

theorem encodeFoldM_some_length (V : FieldMap) (fields : List FieldDef)
    (buf b : List Nat) (harr : ∀ f ∈ fields, 1 ≤ f.arrayLength)
    (h : fields.foldlM (encodeStep V) buf = some b) : b.length = buf.length := by
  induction fields generalizing buf with
  | nil =>
      rw [List.foldlM_nil] at h
      cases h
      rfl
  | cons f fs ih =>
      rw [List.foldlM_cons] at h
      cases hs : encodeStep V buf f with
      | none => rw [hs] at h; cases h
      | some b1 =>
          rw [hs] at h
          have h' : fs.foldlM (encodeStep V) b1 = some b := h
          have h1 := encodeStep_some_length V buf f b1
            (harr f (List.mem_cons_self f fs)) hs
          have h2 := ih b1 (fun g hg => harr g (List.mem_cons_of_mem f hg)) h'
          omega

theorem encodeStep_none_cause (V : FieldMap) (buf : List Nat) (f : FieldDef)
    (h : encodeStep V buf f = none) : encodeFieldOk V buf.length f = false := by
  unfold encodeStep at h
  unfold encodeFieldOk
  split at h
  · cases h
  · cases h
  · rename_i v hne heq
    split at h
    · cases h
    · rename_i hb
      split at h
      · rename_i hc
        have hlen : (readAt buf f.offset (fieldWidth f)).length = fieldWidth f :=
          readAt_length_of_fit _ _ _ (by omega)
        have hiso := encodeSingleValue_isSome_eq f v _ hlen
        rw [hc] at hiso
        have ht : tagMatches f.type v = false := by simpa using hiso.symm
        simp [hb, ht]
      · cases h

theorem encodeStep_some_cond (V : FieldMap) (buf : List Nat) (f : FieldDef)
    (b' : List Nat) (h : encodeStep V buf f = some b') :
    encodeFieldOk V buf.length f = true := by
  unfold encodeStep at h
  unfold encodeFieldOk
  split at h
  · rfl
  · rfl
  · rename_i v hne heq
    split at h
    · rename_i hb
      simp [hb]
    · rename_i hb
      split at h
      · cases h
      · rename_i chunk hc
        have hlen : (readAt buf f.offset (fieldWidth f)).length = fieldWidth f :=
          readAt_length_of_fit _ _ _ (by omega)
        have hiso := encodeSingleValue_isSome_eq f v _ hlen
        rw [hc] at hiso
        have ht : tagMatches f.type v = true := by simpa using hiso.symm
        simp [ht]

theorem encodeFoldM_isSome_iff (V : FieldMap) (fields : List FieldDef)
    (buf : List Nat) (harr : ∀ f ∈ fields, 1 ≤ f.arrayLength) :
    (fields.foldlM (encodeStep V) buf).isSome = true ↔
      ∀ f ∈ fields, encodeFieldOk V buf.length f = true := by
  induction fields generalizing buf with
  | nil => simp [List.foldlM_nil]
  | cons f fs ih =>
      rw [List.foldlM_cons]
      cases hs : encodeStep V buf f with
      | none =>
          have hnone : (none >>= fs.foldlM (encodeStep V) : Option (List Nat)) =
              none := rfl
          rw [hnone]
          have hcause := encodeStep_none_cause V buf f hs
          simp only [Option.isSome_none, Bool.false_eq_true, false_iff]
          intro hall
          have := hall f (List.mem_cons_self f fs)
          rw [this] at hcause
          cases hcause
      | some b1 =>
          have hbind : (some b1 >>= fs.foldlM (encodeStep V)) =
              fs.foldlM (encodeStep V) b1 := rfl
          rw [hbind]
          have hlen := encodeStep_some_length V buf f b1
            (harr f (List.mem_cons_self f fs)) hs
          rw [ih b1 (fun g hg => harr g (List.mem_cons_of_mem f hg))]
          rw [hlen]
          constructor
          · intro hfs g hg
            rcases List.mem_cons.mp hg with hgf | hg'
            · rw [hgf]
              exact encodeStep_some_cond V buf f b1 hs
            · exact hfs g hg'
          · intro hall g hg
            exact hall g (List.mem_cons_of_mem f hg)

theorem encodeFoldM_all_unset (V : FieldMap) (fields : List FieldDef)
    (buf : List Nat)
    (hnone : ∀ f ∈ fields,
      alGet V f.name = none ∨ alGet V f.name = some FieldValue.unset) :
    fields.foldlM (encodeStep V) buf = some buf := by
  induction fields with
  | nil => rfl
  | cons f fs ih =>
      rw [List.foldlM_cons]
      have hstep : encodeStep V buf f = some buf := by
        unfold encodeStep
        rcases hnone f (List.mem_cons_self f fs) with h | h <;> rw [h]
      rw [hstep]
      exact ih (fun g hg => hnone g (List.mem_cons_of_mem f hg))

/-- C3 (amended): the encoder is *not* total.  `encodeFields` completes
exactly when every present, non-unset value for an in-bounds field has a
variant tag matching the field's declared type; a mismatching tag makes
`std::get` inside `encodeSingleValue` throw `std::bad_variant_access` instead
of the value being treated as unset.  Genuinely unset or absent values are
skipped and leave the zero-initialised buffer untouched.  (Fields are assumed
to have `arrayLength ≥ 1`, which the XML loader guarantees.) -/
theorem encodeFields_total_iff (D : DatasetDef) (V : FieldMap)
    (harr : ∀ f ∈ D.fields, 1 ≤ f.arrayLength) :
    ((encodeFields D V).isSome = true ↔
      ∀ f ∈ D.fields, encodeFieldOk V D.computeSize f = true) ∧
      ((∀ f ∈ D.fields,
          alGet V f.name = none ∨ alGet V f.name = some FieldValue.unset) →
        encodeFields D V = some (List.replicate D.computeSize 0)) := by
  constructor
  · unfold encodeFields
    have h := encodeFoldM_isSome_iff V D.fields (List.replicate D.computeSize 0) harr
    simpa using h
  · intro h
    exact encodeFoldM_all_unset V D.fields _ h

/-- C3 counterexample: encoding a BOOL field whose supplied value carries an
INT32 tag fails (`std::bad_variant_access` in C++), rather than being treated
as unset; the same call with a genuinely unset value succeeds and leaves the
field's byte zero. -/
theorem encodeFields_mismatch_throws_cex :
    encodeFields { name := "D3", fields := [{ name := "f", type := FieldType.BOOL }] }
        [("f", FieldValue.vInt32 5)] = none ∧
      encodeFields { name := "D3", fields := [{ name := "f", type := FieldType.BOOL }] }
        [("f", FieldValue.unset)] = some [0] := by
  constructor <;> rfl

/-- C3 witness: a matching-tag mapping over a one-byte dataset encodes
successfully, by the amended equivalence. -/
theorem encodeFields_total_iff_witness :
    (encodeFields { name := "D4", fields := [{ name := "g", type := FieldType.UINT8 }] }
        [("g", FieldValue.vUInt8 7)]).isSome = true := by
  exact (encodeFields_total_iff
      { name := "D4", fields := [{ name := "g", type := FieldType.UINT8 }] }
      [("g", FieldValue.vUInt8 7)] (by decide)).1.mpr (by decide)

theorem readAt_writeAt_disjoint (buf : List Nat) (off : Nat) (bs : List Nat)
    (off2 len2 : Nat) (h : rangesDisjoint off bs.length off2 len2)
    (hfit : off + bs.length ≤ buf.length) :
    readAt (writeAt buf off bs) off2 len2 = readAt buf off2 len2 := by
  rcases h with h | h
  · exact readAt_writeAt_after buf off bs off2 len2 h (by omega)
  · exact readAt_writeAt_before buf off bs off2 len2 h (by omega)

theorem readAt_replicate (L off w : Nat) (h : off + w ≤ L) :
    readAt (List.replicate L (0 : Nat)) off w = List.replicate w 0 := by
  unfold readAt
  rw [List.drop_replicate, List.take_replicate]
  congr 1
  omega

theorem tagMatches_unset_false (t : FieldType) :
    tagMatches t FieldValue.unset = false := by
  cases t <;> rfl

theorem drop_replicate_zero (n m : Nat) :
    (List.replicate n (0 : Nat)).drop m = List.replicate (n - m) 0 :=
  List.drop_replicate ..

theorem encodeSingleValue_zero (f : FieldDef) (v : FieldValue)
    (htag : tagMatches f.type v = true) (harr : 1 ≤ f.arrayLength) :
    encodeSingleValue f v (List.replicate (fieldWidth f) 0) =
      some (fieldChunk f v) := by
  obtain ⟨nm, ty, off, sz, bo, al⟩ := f
  have harr' : 1 ≤ al := harr
  unfold encodeSingleValue fieldChunk
  simp only [List.length_replicate, lt_self_iff_false, if_false]
  cases ty <;> cases v <;>
    simp_all [tagMatches, drop_replicate_zero, toBytesLE_length,
      toBytesLEInt_length]

theorem fieldChunk_length (f : FieldDef) (v : FieldValue)
    (htag : tagMatches f.type v = true) (harr : 1 ≤ f.arrayLength) :
    (fieldChunk f v).length = fieldWidth f := by
  obtain ⟨nm, ty, off, sz, bo, al⟩ := f
  have harr' : 1 ≤ al := harr
  unfold fieldChunk
  cases ty <;> cases v <;> simp_all [tagMatches] <;>
    simp [toBytesLE_length, toBytesLEInt_length, padTruncate_length,
      fieldWidth] <;>
    omega

theorem fromBytesLE_toBytesLEInt (w : Nat) (v : Int) :
    fromBytesLE (toBytesLEInt w v) = (v % ((256 ^ w : Nat) : Int)).toNat := by
  unfold toBytesLEInt
  rw [fromBytesLE_toBytesLE]
  apply Nat.mod_eq_of_lt
  have hp : 0 < 256 ^ w := pow_pos (by norm_num) w
  have hposI : (0 : Int) < ((256 ^ w : Nat) : Int) := by exact_mod_cast hp
  have h1 := Int.emod_nonneg v (ne_of_gt hposI)
  have h2 := Int.emod_lt_of_pos v hposI
  omega

theorem asSigned_round (w : Nat) (v : Int) (hw : 1 ≤ w)
    (hlo : -((256 ^ w / 2 : Nat) : Int) ≤ v)
    (hhi : v < ((256 ^ w / 2 : Nat) : Int)) :
    asSigned w (v % ((256 ^ w : Nat) : Int)).toNat = v := by
  have hp : 0 < 256 ^ w := pow_pos (by norm_num) w
  have hdvd : 2 ∣ 256 ^ w := by
    obtain ⟨w', rfl⟩ := Nat.exists_eq_succ_of_ne_zero (by omega : w ≠ 0)
    rw [pow_succ]
    exact Dvd.dvd.mul_left (by norm_num) _
  have hhalf : 256 ^ w / 2 * 2 = 256 ^ w := Nat.div_mul_cancel hdvd
  unfold asSigned
  rcases le_or_lt 0 v with h0 | h0
  · have hlt : v < ((256 ^ w : Nat) : Int) := by
      have hle : 256 ^ w / 2 ≤ 256 ^ w := Nat.div_le_self _ _
      have hleI : ((256 ^ w / 2 : Nat) : Int) ≤ ((256 ^ w : Nat) : Int) := by
        exact_mod_cast hle
      omega
    rw [Int.emod_eq_of_lt h0 hlt]
    rw [if_pos (by omega)]
    omega
  · have hmod : v % ((256 ^ w : Nat) : Int) = v + ((256 ^ w : Nat) : Int) := by
      have h1 : (v + ((256 ^ w : Nat) : Int) * 1) % ((256 ^ w : Nat) : Int) =
          v % ((256 ^ w : Nat) : Int) :=
        Int.add_mul_emod_self_left v ((256 ^ w : Nat) : Int) 1
      rw [← h1, mul_one]
      apply Int.emod_eq_of_lt <;> omega
    rw [hmod]
    rw [if_neg (by omega)]
    omega

theorem take_getD_zero (l : List Nat) (n : Nat) (h : 1 ≤ n) :
    (l.take n).getD 0 0 = l.getD 0 0 := by
  cases l <;> cases n <;> simp_all [List.getD]

theorem take_of_readAt_chunk (payload : List Nat) (off w0 width : Nat)
    (bs tail : List Nat) (hbs : bs.length = w0) (hw : w0 ≤ width)
    (hchunk : readAt payload off width = bs ++ tail) :
    (payload.drop off).take w0 = bs := by
  have h1 : (payload.drop off).take w0 = ((payload.drop off).take width).take w0 := by
    rw [List.take_take]
    congr 1
    omega
  rw [h1]
  have h2 : (payload.drop off).take width = readAt payload off width := rfl
  rw [h2, hchunk]
  rw [List.take_append_of_le_length (by omega)]
  rw [← hbs]
  exact List.take_length bs

theorem decodeSingle_of_chunk (f : FieldDef) (v : FieldValue) (payload : List Nat)
    (htag : tagMatches f.type v = true) (hwf : wfValue v = true)
    (harr : 1 ≤ f.arrayLength)
    (hsz : f.type = FieldType.STRING ∨ f.type = FieldType.BYTES → 0 < f.size)
    (hfit : f.offset + fieldWidth f ≤ payload.length)
    (hchunk : readAt payload f.offset (fieldWidth f) = fieldChunk f v) :
    decodeSingleValue f (payload.drop f.offset) = normalizeValue f v := by
  obtain ⟨nm, ty, off, sz, bo, al⟩ := f
  have harr' : 1 ≤ al := harr
  have hfit' : off + fieldWidth ⟨nm, ty, off, sz, bo, al⟩ ≤ payload.length := hfit
  have htag' : tagMatches ty v = true := htag
  have hchunk' : readAt payload off (fieldWidth ⟨nm, ty, off, sz, bo, al⟩) =
      fieldChunk ⟨nm, ty, off, sz, bo, al⟩ v := hchunk
  have hsz' : ty = FieldType.STRING ∨ ty = FieldType.BYTES → 0 < sz := hsz
  show decodeSingleValue ⟨nm, ty, off, sz, bo, al⟩ (payload.drop off) =
    normalizeValue ⟨nm, ty, off, sz, bo, al⟩ v
  unfold decodeSingleValue
  rw [if_neg (by simp only [List.length_drop]; omega)]
  cases ty with
  | BOOL =>
      obtain ⟨b, rfl⟩ : ∃ b, v = FieldValue.vBool b := by
        cases v <;> first | exact ⟨_, rfl⟩ | simp [tagMatches] at htag'
      have hW : 1 ≤ fieldWidth ⟨nm, FieldType.BOOL, off, sz, bo, al⟩ := by
        simp [fieldWidth]
        omega
      have hg : (payload.drop off).getD 0 0 = (if b then 1 else 0) := by
        rw [← take_getD_zero (payload.drop off) _ hW]
        have hr : (payload.drop off).take
            (fieldWidth ⟨nm, FieldType.BOOL, off, sz, bo, al⟩) =
            readAt payload off (fieldWidth ⟨nm, FieldType.BOOL, off, sz, bo, al⟩) :=
          rfl
        rw [hr, hchunk']
        cases b <;> rfl
      show FieldValue.vBool ((payload.drop off).getD 0 0 != 0) = _
      rw [hg]
      cases b <;> rfl
  | INT8 =>
      obtain ⟨n, rfl⟩ : ∃ n, v = FieldValue.vInt8 n := by
        cases v <;> first | exact ⟨_, rfl⟩ | simp [tagMatches] at htag'
      simp only [wfValue, Bool.and_eq_true, decide_eq_true_eq] at hwf
      have hb := take_of_readAt_chunk payload off 1 _ (toBytesLEInt 1 n) _
        (toBytesLEInt_length 1 n) (by simp [fieldWidth]; omega) hchunk'
      show FieldValue.vInt8 (asSigned 1 (fromBytesLE ((payload.drop off).take 1))) = _
      rw [hb, fromBytesLE_toBytesLEInt]
      rw [asSigned_round 1 n (by norm_num) (by norm_num; omega) (by norm_num; omega)]
      rfl
  | UINT8 =>
      obtain ⟨n, rfl⟩ : ∃ n, v = FieldValue.vUInt8 n := by
        cases v <;> first | exact ⟨_, rfl⟩ | simp [tagMatches] at htag'
      simp only [wfValue, decide_eq_true_eq] at hwf
      have hb := take_of_readAt_chunk payload off 1 _ (toBytesLE 1 n) _
        (toBytesLE_length 1 n) (by simp [fieldWidth]; omega) hchunk'
      show FieldValue.vUInt8 (fromBytesLE ((payload.drop off).take 1)) = _
      rw [hb, fromBytesLE_toBytesLE, Nat.mod_eq_of_lt (by norm_num; omega)]
      rfl
  | INT16 =>
      obtain ⟨n, rfl⟩ : ∃ n, v = FieldValue.vInt16 n := by
        cases v <;> first | exact ⟨_, rfl⟩ | simp [tagMatches] at htag'
      simp only [wfValue, Bool.and_eq_true, decide_eq_true_eq] at hwf
      have hb := take_of_readAt_chunk payload off 2 _ (toBytesLEInt 2 n) _
        (toBytesLEInt_length 2 n) (by simp [fieldWidth]; omega) hchunk'
      show FieldValue.vInt16 (asSigned 2 (fromBytesLE ((payload.drop off).take 2))) = _
      rw [hb, fromBytesLE_toBytesLEInt]
      rw [asSigned_round 2 n (by norm_num) (by norm_num; omega) (by norm_num; omega)]
      rfl
  | UINT16 =>
      obtain ⟨n, rfl⟩ : ∃ n, v = FieldValue.vUInt16 n := by
        cases v <;> first | exact ⟨_, rfl⟩ | simp [tagMatches] at htag'
      simp only [wfValue, decide_eq_true_eq] at hwf
      have hb := take_of_readAt_chunk payload off 2 _ (toBytesLE 2 n) _
        (toBytesLE_length 2 n) (by simp [fieldWidth]; omega) hchunk'
      show FieldValue.vUInt16 (fromBytesLE ((payload.drop off).take 2)) = _
      rw [hb, fromBytesLE_toBytesLE, Nat.mod_eq_of_lt (by norm_num; omega)]
      rfl
  | INT32 =>
      obtain ⟨n, rfl⟩ : ∃ n, v = FieldValue.vInt32 n := by
        cases v <;> first | exact ⟨_, rfl⟩ | simp [tagMatches] at htag'
      simp only [wfValue, Bool.and_eq_true, decide_eq_true_eq] at hwf
      have hb := take_of_readAt_chunk payload off 4 _ (toBytesLEInt 4 n) _
        (toBytesLEInt_length 4 n) (by simp [fieldWidth]; omega) hchunk'
      show FieldValue.vInt32 (asSigned 4 (fromBytesLE ((payload.drop off).take 4))) = _
      rw [hb, fromBytesLE_toBytesLEInt]
      rw [asSigned_round 4 n (by norm_num) (by norm_num; omega) (by norm_num; omega)]
      rfl
  | UINT32 =>
      obtain ⟨n, rfl⟩ : ∃ n, v = FieldValue.vUInt32 n := by
        cases v <;> first | exact ⟨_, rfl⟩ | simp [tagMatches] at htag'
      simp only [wfValue, decide_eq_true_eq] at hwf
      have hb := take_of_readAt_chunk payload off 4 _ (toBytesLE 4 n) _
        (toBytesLE_length 4 n) (by simp [fieldWidth]; omega) hchunk'
      show FieldValue.vUInt32 (fromBytesLE ((payload.drop off).take 4)) = _
      rw [hb, fromBytesLE_toBytesLE, Nat.mod_eq_of_lt (by norm_num; omega)]
      rfl
  | FLOAT =>
      obtain ⟨bits, rfl⟩ : ∃ bits, v = FieldValue.vFloat bits := by
        cases v <;> first | exact ⟨_, rfl⟩ | simp [tagMatches] at htag'
      simp only [wfValue, decide_eq_true_eq] at hwf
      have hb := take_of_readAt_chunk payload off 4 _ (toBytesLE 4 bits) _
        (toBytesLE_length 4 bits) (by simp [fieldWidth]; omega) hchunk'
      show FieldValue.vFloat (fromBytesLE ((payload.drop off).take 4)) = _
      rw [hb, fromBytesLE_toBytesLE, Nat.mod_eq_of_lt (by norm_num; omega)]
      rfl
  | DOUBLE =>
      obtain ⟨bits, rfl⟩ : ∃ bits, v = FieldValue.vDouble bits := by
        cases v <;> first | exact ⟨_, rfl⟩ | simp [tagMatches] at htag'
      simp only [wfValue, decide_eq_true_eq] at hwf
      have hb := take_of_readAt_chunk payload off 8 _ (toBytesLE 8 bits) _
        (toBytesLE_length 8 bits) (by simp [fieldWidth]; omega) hchunk'
      show FieldValue.vDouble (fromBytesLE ((payload.drop off).take 8)) = _
      rw [hb, fromBytesLE_toBytesLE, Nat.mod_eq_of_lt (by norm_num; omega)]
      rfl
  | STRING =>
      obtain ⟨s, rfl⟩ : ∃ s, v = FieldValue.vString s := by
        cases v <;> first | exact ⟨_, rfl⟩ | simp [tagMatches] at htag'
      have hszpos : 0 < sz := hsz' (Or.inl rfl)
      show FieldValue.vString ((payload.drop off).take
          (if sz > 0 then min sz (payload.drop off).length
           else (payload.drop off).length)) = _
      rw [if_pos hszpos]
      have hmin : min sz (payload.drop off).length = sz := by
        simp only [fieldWidth] at hfit'
        simp only [List.length_drop]
        omega
      rw [hmin]
      exact congrArg FieldValue.vString
        (hchunk' : readAt payload off sz = padTruncate sz s)
  | BYTES =>
      obtain ⟨bs, rfl⟩ : ∃ bs, v = FieldValue.vBytes bs := by
        cases v <;> first | exact ⟨_, rfl⟩ | simp [tagMatches] at htag'
      have hszpos : 0 < sz := hsz' (Or.inr rfl)
      show FieldValue.vBytes ((payload.drop off).take
          (if sz > 0 then min sz (payload.drop off).length
           else (payload.drop off).length)) = _
      rw [if_pos hszpos]
      have hmin : min sz (payload.drop off).length = sz := by
        simp only [fieldWidth] at hfit'
        simp only [List.length_drop]
        omega
      rw [hmin]
      exact congrArg FieldValue.vBytes
        (hchunk' : readAt payload off sz = padTruncate sz bs)

theorem rangesDisjoint_symm (a b c d : Nat) (h : rangesDisjoint a b c d) :
    rangesDisjoint c d a b := h.symm

theorem encodeFoldM_chunks (V : FieldMap) (fields : List FieldDef)
    (buf : List Nat)
    (harr : ∀ f ∈ fields, 1 ≤ f.arrayLength)
    (hfit : ∀ f ∈ fields, f.offset + fieldWidth f ≤ buf.length)
    (hdisj : fieldsDisjoint fields)
    (hvals : ∀ f ∈ fields, ∃ v, alGet V f.name = some v ∧ tagMatches f.type v = true)
    (hzero : ∀ f ∈ fields, readAt buf f.offset (fieldWidth f) =
      List.replicate (fieldWidth f) 0) :
    ∃ b, fields.foldlM (encodeStep V) buf = some b ∧ b.length = buf.length ∧
      (∀ f ∈ fields, ∀ v, alGet V f.name = some v →
        readAt b f.offset (fieldWidth f) = fieldChunk f v) ∧
      (∀ off2 len2, (∀ f ∈ fields,
          rangesDisjoint f.offset (fieldWidth f) off2 len2) →
        readAt b off2 len2 = readAt buf off2 len2) := by
  induction fields generalizing buf with
  | nil =>
      refine ⟨buf, rfl, rfl, ?_, fun off2 len2 _ => rfl⟩
      intro f hf
      cases hf
  | cons f fs ih =>
      obtain ⟨v, hv, htag⟩ := hvals f (List.mem_cons_self f fs)
      have hne : v ≠ FieldValue.unset := by
        intro he
        rw [he, tagMatches_unset_false] at htag
        cases htag
      have hfarr := harr f (List.mem_cons_self f fs)
      have hffit := hfit f (List.mem_cons_self f fs)
      have hfz := hzero f (List.mem_cons_self f fs)
      have hchlen : (fieldChunk f v).length = fieldWidth f :=
        fieldChunk_length f v htag hfarr
      have henc := encodeSingleValue_zero f v htag hfarr
      have hng : ¬ (f.offset + fieldWidth f > buf.length) := by omega
      have hstep : encodeStep V buf f =
          some (writeAt buf f.offset (fieldChunk f v)) := by
        unfold encodeStep
        rw [hv]
        cases v <;>
          first
          | exact absurd rfl hne
          | simp only [hfz, henc, if_neg hng]
      have hb1len : (writeAt buf f.offset (fieldChunk f v)).length = buf.length :=
        writeAt_length _ _ _ (by omega)
      have hb1own : readAt (writeAt buf f.offset (fieldChunk f v)) f.offset
          (fieldWidth f) = fieldChunk f v := by
        have h := readAt_writeAt_same buf f.offset (fieldChunk f v) (by omega)
        rw [hchlen] at h
        exact h
      obtain ⟨hfdisj, hdisj'⟩ := List.pairwise_cons.mp hdisj
      have hzero1 : ∀ g ∈ fs,
          readAt (writeAt buf f.offset (fieldChunk f v)) g.offset (fieldWidth g) =
            List.replicate (fieldWidth g) 0 := by
        intro g hg
        rw [readAt_writeAt_disjoint buf f.offset (fieldChunk f v) g.offset
          (fieldWidth g) (by rw [hchlen]; exact hfdisj g hg) (by omega)]
        exact hzero g (List.mem_cons_of_mem f hg)
      obtain ⟨b, hfold, hblen, hown, hframe⟩ := ih
        (writeAt buf f.offset (fieldChunk f v))
        (fun g hg => harr g (List.mem_cons_of_mem f hg))
        (fun g hg => by rw [hb1len]; exact hfit g (List.mem_cons_of_mem f hg))
        hdisj'
        (fun g hg => hvals g (List.mem_cons_of_mem f hg))
        hzero1
      refine ⟨b, ?_, by omega, ?_, ?_⟩
      · rw [List.foldlM_cons, hstep]
        exact hfold
      · intro g hg w hw
        rcases List.mem_cons.mp hg with hgf | hg'
        · subst hgf
          have hwv : w = v := by
            rw [hv] at hw
            exact (Option.some.injEq .. ▸ hw).symm
          subst hwv
          rw [hframe g.offset (fieldWidth g) (fun g' hg' =>
            rangesDisjoint_symm _ _ _ _ (hfdisj g' hg'))]
          exact hb1own
        · exact hown g hg' w hw
      · intro off2 len2 hd
        rw [hframe off2 len2 (fun g hg => hd g (List.mem_cons_of_mem f hg))]
        exact readAt_writeAt_disjoint buf f.offset (fieldChunk f v) off2 len2
          (by rw [hchlen]; exact hd f (List.mem_cons_self f fs)) (by omega)

theorem setFieldValue_buffer (rt : TelegramRuntime) (n : String) (v : FieldValue) :
    ((rt.setFieldValue n v).1).buffer = rt.buffer := by
  unfold TelegramRuntime.setFieldValue
  split <;> rfl

theorem decodeStep_buffer (p : List Nat) (r : TelegramRuntime) (f : FieldDef) :
    (decodeStep p r f).buffer = r.buffer := by
  unfold decodeStep
  split
  · rfl
  · exact setFieldValue_buffer ..

theorem decodeFold_buffer (p : List Nat) (fields : List FieldDef)
    (rt : TelegramRuntime) :
    (fields.foldl (decodeStep p) rt).buffer = rt.buffer := by
  induction fields generalizing rt with
  | nil => rfl
  | cons f fs ih =>
      rw [List.foldl_cons]
      rw [ih (decodeStep p rt f)]
      exact decodeStep_buffer ..

theorem decodeFieldsIntoRuntime_buffer (D : DatasetDef) (rt : TelegramRuntime)
    (p : List Nat) : (decodeFieldsIntoRuntime D rt p).buffer = p := by
  unfold decodeFieldsIntoRuntime
  rw [decodeFold_buffer]
  rfl

theorem setFieldValue_getField_other (rt : TelegramRuntime) (n m : String)
    (v : FieldValue) (h : m ≠ n) :
    ((rt.setFieldValue n v).1).getFieldValue m = rt.getFieldValue m := by
  unfold TelegramRuntime.setFieldValue TelegramRuntime.getFieldValue
  split
  · rfl
  · exact alGet_alUpdate_ne rt.fieldValues n m v h

theorem setFieldValue_getField_present (rt : TelegramRuntime) (n : String)
    (v : FieldValue) (h : (rt.getFieldValue n).isSome = true) :
    ((rt.setFieldValue n v).1).getFieldValue n = some v := by
  unfold TelegramRuntime.getFieldValue at h ⊢
  unfold TelegramRuntime.setFieldValue
  cases hg : alGet rt.fieldValues n with
  | none => rw [hg] at h; cases h
  | some w =>
      show alGet (alUpdate rt.fieldValues n v) n = some v
      rw [alGet_alUpdate, hg]
      rfl

theorem setFieldValue_getField_isSome (rt : TelegramRuntime) (n m : String)
    (v : FieldValue) :
    (((rt.setFieldValue n v).1).getFieldValue m).isSome =
      (rt.getFieldValue m).isSome := by
  by_cases h : m = n
  · subst h
    unfold TelegramRuntime.setFieldValue TelegramRuntime.getFieldValue
    cases hg : alGet rt.fieldValues m with
    | none => rw [hg]
    | some w =>
        show (alGet (alUpdate rt.fieldValues m v) m).isSome = (some w).isSome
        rw [alGet_alUpdate, hg]
        rfl
  · rw [setFieldValue_getField_other rt n m v h]

theorem decodeStep_getField_other (p : List Nat) (r : TelegramRuntime)
    (f : FieldDef) (m : String) (h : m ≠ f.name) :
    (decodeStep p r f).getFieldValue m = r.getFieldValue m := by
  unfold decodeStep
  split
  · rfl
  · exact setFieldValue_getField_other r f.name m _ h

theorem decodeStep_getField_isSome (p : List Nat) (r : TelegramRuntime)
    (f : FieldDef) (m : String) :
    ((decodeStep p r f).getFieldValue m).isSome = (r.getFieldValue m).isSome := by
  unfold decodeStep
  split
  · rfl
  · exact setFieldValue_getField_isSome r f.name m _

theorem decodeStep_getField_same (p : List Nat) (r : TelegramRuntime)
    (f : FieldDef) (hk : (r.getFieldValue f.name).isSome = true)
    (hf : f.offset + fieldWidth f ≤ p.length) :
    (decodeStep p r f).getFieldValue f.name =
      some (decodeSingleValue f (p.drop f.offset)) := by
  unfold decodeStep
  rw [if_neg (by omega)]
  exact setFieldValue_getField_present r f.name _ hk

theorem decodeFold_frame (p : List Nat) (fields : List FieldDef)
    (rt : TelegramRuntime) (m : String) (h : ∀ f ∈ fields, f.name ≠ m) :
    (fields.foldl (decodeStep p) rt).getFieldValue m = rt.getFieldValue m := by
  induction fields generalizing rt with
  | nil => rfl
  | cons f fs ih =>
      rw [List.foldl_cons]
      rw [ih (decodeStep p rt f) (fun g hg => h g (List.mem_cons_of_mem f hg))]
      exact decodeStep_getField_other p rt f m
        (fun he => h f (List.mem_cons_self f fs) he.symm)

theorem decodeFold_getField (p : List Nat) (fields : List FieldDef)
    (rt : TelegramRuntime)
    (hnodup : (fields.map FieldDef.name).Nodup)
    (hkeys : ∀ f ∈ fields, (rt.getFieldValue f.name).isSome = true)
    (hfits : ∀ f ∈ fields, f.offset + fieldWidth f ≤ p.length) :
    ∀ f ∈ fields, (fields.foldl (decodeStep p) rt).getFieldValue f.name =
      some (decodeSingleValue f (p.drop f.offset)) := by
  induction fields generalizing rt with
  | nil =>
      intro f hf
      cases hf
  | cons g gs ih =>
      intro f hf
      rw [List.map_cons, List.nodup_cons] at hnodup
      rw [List.foldl_cons]
      rcases List.mem_cons.mp hf with hfg | hf'
      · subst hfg
        rw [decodeFold_frame p gs (decodeStep p rt f) f.name
          (fun g' hg' hne => hnodup.1 (hne ▸ List.mem_map_of_mem FieldDef.name hg'))]
        exact decodeStep_getField_same p rt f
          (hkeys f (List.mem_cons_self f gs)) (hfits f (List.mem_cons_self f gs))
      · exact ih (decodeStep p rt g) hnodup.2
          (fun g' hg' => by
            rw [decodeStep_getField_isSome]
            exact hkeys g' (List.mem_cons_of_mem g hg'))
          (fun g' hg' => hfits g' (List.mem_cons_of_mem g hg')) f hf'

theorem alGet_alEmplace_self_isSome [DecidableEq κ] (l : List (κ × ν)) (k : κ)
    (v : ν) : (alGet (alEmplace l k v) k).isSome = true := by
  induction l with
  | nil => simp [alEmplace, alGet]
  | cons hd tl ih =>
      obtain ⟨k', v'⟩ := hd
      by_cases h : k = k' <;> simp [alEmplace, alGet, h, ih]

theorem alGet_alEmplace_isSome_mono [DecidableEq κ] (l : List (κ × ν)) (k n : κ)
    (v : ν) (h : (alGet l n).isSome = true) :
    (alGet (alEmplace l k v) n).isSome = true := by
  induction l with
  | nil => simp [alGet] at h
  | cons hd tl ih =>
      obtain ⟨k', v'⟩ := hd
      by_cases hk : k = k'
      · simpa [alEmplace, hk] using h
      · by_cases hn : n = k' <;> simp_all [alEmplace, alGet, hk, hn]

theorem foldEmplace_isSome (fields : List FieldDef) (l : FieldMap) (n : String)
    (h : (alGet l n).isSome = true ∨ ∃ f ∈ fields, f.name = n) :
    (alGet (fields.foldl (fun m f => alEmplace m f.name FieldValue.unset) l)
      n).isSome = true := by
  induction fields generalizing l with
  | nil =>
      rcases h with h | ⟨f, hf, _⟩
      · exact h
      · cases hf
  | cons g gs ih =>
      rw [List.foldl_cons]
      apply ih
      rcases h with h | ⟨f, hf, hn⟩
      · exact Or.inl (alGet_alEmplace_isSome_mono l g.name n FieldValue.unset h)
      · rcases List.mem_cons.mp hf with hfg | hf'
        · subst hfg
          subst hn
          exact Or.inl (alGet_alEmplace_self_isSome l f.name FieldValue.unset)
        · exact Or.inr ⟨f, hf', hn⟩

theorem create_getField_isSome (D : DatasetDef) (rid : Nat) (f : FieldDef)
    (hf : f ∈ D.fields) :
    ((TelegramRuntime.create D rid).getFieldValue f.name).isSome = true := by
  unfold TelegramRuntime.create TelegramRuntime.getFieldValue
  exact foldEmplace_isSome D.fields [] f.name (Or.inr ⟨f, hf, rfl⟩)

/-- C5 (amended): codec round trip.  For a dataset whose fields fit in the
effective size, occupy pairwise disjoint byte ranges, carry distinct names,
have `arrayLength ≥ 1`, and whose string/bytes fields have `size > 0`, and
for a value mapping assigning every field a machine-representable value of
matching tag, decoding the encoded buffer yields, for each field, exactly the
mapped value — with strings and byte arrays normalized by truncating and
NUL-padding to exactly `size` bytes. -/
theorem encode_decode_roundtrip (D : DatasetDef) (V : FieldMap) (rid : Nat)
    (harr : ∀ f ∈ D.fields, 1 ≤ f.arrayLength)
    (hsz : ∀ f ∈ D.fields,
      f.type = FieldType.STRING ∨ f.type = FieldType.BYTES → 0 < f.size)
    (hfit : ∀ f ∈ D.fields, f.offset + fieldWidth f ≤ D.computeSize)
    (hdisj : fieldsDisjoint D.fields)
    (hnodup : (D.fields.map FieldDef.name).Nodup)
    (hvals : ∀ f ∈ D.fields, fieldValOk V f = true) :
    ∃ buf, encodeFields D V = some buf ∧
      ∀ f ∈ D.fields, ∀ v, alGet V f.name = some v →
        (decodeFieldsIntoRuntime D (TelegramRuntime.create D rid)
            buf).getFieldValue f.name = some (normalizeValue f v) := by
  have hex : ∀ f ∈ D.fields,
      ∃ v, alGet V f.name = some v ∧ tagMatches f.type v = true := by
    intro f hf
    have h := hvals f hf
    unfold fieldValOk at h
    cases hg : alGet V f.name with
    | none => rw [hg] at h; cases h
    | some v =>
        rw [hg] at h
        simp only [Bool.and_eq_true] at h
        exact ⟨v, rfl, h.1⟩
  have hwfv : ∀ f ∈ D.fields, ∀ v, alGet V f.name = some v →
      tagMatches f.type v = true ∧ wfValue v = true := by
    intro f hf v hv
    have h := hvals f hf
    unfold fieldValOk at h
    rw [hv] at h
    simpa using h
  obtain ⟨buf, hfold, hblen, hchunks, _⟩ := encodeFoldM_chunks V D.fields
    (List.replicate D.computeSize 0) harr
    (fun f hf => by
      rw [List.length_replicate]
      exact hfit f hf)
    hdisj hex
    (fun f hf => readAt_replicate _ _ _ (hfit f hf))
  have hbuflen : buf.length = D.computeSize := by
    rw [hblen, List.length_replicate]
  refine ⟨buf, hfold, ?_⟩
  intro f hf v hv
  obtain ⟨htag, hwf⟩ := hwfv f hf v hv
  unfold decodeFieldsIntoRuntime
  rw [decodeFold_getField buf D.fields
    ((TelegramRuntime.create D rid).overwriteBuffer buf) hnodup
    (fun g hg => create_getField_isSome D rid g hg)
    (fun g hg => by rw [hbuflen]; exact hfit g hg) f hf]
  exact congrArg some
    (decodeSingle_of_chunk f v buf htag hwf (harr f hf) (hsz f hf)
      (by rw [hbuflen]; exact hfit f hf) (hchunks f hf v hv))

/-- C5 counterexample: for the dataset with declared size 4 and one BYTES
field of `size = 0` at offset 0 (the field fits: its width is 0) and the
matching-tag value mapping sending it to the empty byte vector, decoding the
encoded buffer yields 4 bytes — the whole remaining payload — not the
mapping's value normalized to `size = 0` bytes. -/
theorem roundtrip_zero_size_bytes_cex :
    encodeFields
        { name := "D5", size := 4,
          fields := [{ name := "f", type := FieldType.BYTES, offset := 0,
                       size := 0 }] }
        [("f", FieldValue.vBytes [])] = some [0, 0, 0, 0] ∧
      (decodeFieldsIntoRuntime
          { name := "D5", size := 4,
            fields := [{ name := "f", type := FieldType.BYTES, offset := 0,
                         size := 0 }] }
          (TelegramRuntime.create
            { name := "D5", size := 4,
              fields := [{ name := "f", type := FieldType.BYTES, offset := 0,
                           size := 0 }] } 0)
          [0, 0, 0, 0]).getFieldValue "f" =
        some (FieldValue.vBytes [0, 0, 0, 0]) ∧
      FieldValue.vBytes ([] : List Nat) ≠ FieldValue.vBytes [0, 0, 0, 0] := by
  refine ⟨rfl, rfl, by decide⟩

/-- C5 witness: the round trip at a concrete two-field dataset (a UINT16
scalar and a 3-byte string). -/
theorem encode_decode_roundtrip_witness :
    ∃ buf, encodeFields roundtripDemoDataset roundtripDemoValues = some buf ∧
      ∀ f ∈ roundtripDemoDataset.fields,
        ∀ v, alGet roundtripDemoValues f.name = some v →
          (decodeFieldsIntoRuntime roundtripDemoDataset
              (TelegramRuntime.create roundtripDemoDataset 0)
              buf).getFieldValue f.name = some (normalizeValue f v) := by
  exact encode_decode_roundtrip roundtripDemoDataset roundtripDemoValues 0
    (by decide) (by decide) (by decide) (by decide) (by decide) (by decide)

/-- C4 (amended): the wire-buffer length equals the dataset's effective size
after construction, and `encodeFields` (the TX path) always produces a buffer
of exactly the effective size; but `overwriteBuffer` — and hence the RX path
`decodeFieldsIntoRuntime`, which `handleRxTelegram` invokes with the received
payload — replaces the buffer with the payload verbatim, so after an RX the
buffer length equals the payload length and the invariant survives only when
the payload already has the effective size. -/
theorem runtime_buffer_length (D : DatasetDef) (rid : Nat)
    (rt : TelegramRuntime) (data payload : List Nat) (V : FieldMap)
    (b : List Nat) (henc : encodeFields D V = some b)
    (harr : ∀ f ∈ D.fields, 1 ≤ f.arrayLength) :
    (TelegramRuntime.create D rid).bufferSize = D.computeSize ∧
      (rt.overwriteBuffer data).buffer = data ∧
      (decodeFieldsIntoRuntime D rt payload).buffer = payload ∧
      ((decodeFieldsIntoRuntime D rt payload).bufferSize = D.computeSize ↔
        payload.length = D.computeSize) ∧
      b.length = D.computeSize := by
  refine ⟨?_, rfl, decodeFieldsIntoRuntime_buffer D rt payload, ?_, ?_⟩
  · show (List.replicate D.computeSize (0 : Nat)).length = D.computeSize
    exact List.length_replicate ..
  · show (decodeFieldsIntoRuntime D rt payload).buffer.length = D.computeSize ↔ _
    rw [decodeFieldsIntoRuntime_buffer D rt payload]
  · have h := encodeFoldM_some_length V D.fields
      (List.replicate D.computeSize 0) b harr henc
    rw [List.length_replicate] at h
    exact h

/-- C4 counterexample: a runtime over a dataset of effective size 4 receives
a 2-byte payload through the RX decode path; afterwards its wire buffer has
length 2, so the invariant `buffer length = effective size` is violated. -/
theorem runtime_buffer_length_cex :
    DatasetDef.computeSize
        { name := "D6",
          fields := [{ name := "f", type := FieldType.UINT32, offset := 0 }] } =
      4 ∧
      (TelegramRuntime.create
          { name := "D6",
            fields := [{ name := "f", type := FieldType.UINT32, offset := 0 }] }
          0).bufferSize = 4 ∧
      (decodeFieldsIntoRuntime
          { name := "D6",
            fields := [{ name := "f", type := FieldType.UINT32, offset := 0 }] }
          (TelegramRuntime.create
            { name := "D6",
              fields := [{ name := "f", type := FieldType.UINT32, offset := 0 }] }
            0)
          [1, 2]).bufferSize = 2 ∧
      (2 : Nat) ≠ 4 := by
  refine ⟨rfl, rfl, rfl, by decide⟩

/-- C4 witness: the amended statement at a concrete dataset, runtime, payload
and encoded buffer. -/
theorem runtime_buffer_length_witness :
    (TelegramRuntime.create roundtripDemoDataset 1).bufferSize =
        roundtripDemoDataset.computeSize ∧
      ((TelegramRuntime.create roundtripDemoDataset 1).overwriteBuffer
          [9]).buffer = [9] ∧
      (decodeFieldsIntoRuntime roundtripDemoDataset
          (TelegramRuntime.create roundtripDemoDataset 1) [7, 7]).buffer =
        [7, 7] ∧
      ((decodeFieldsIntoRuntime roundtripDemoDataset
            (TelegramRuntime.create roundtripDemoDataset 1)
            [7, 7]).bufferSize = roundtripDemoDataset.computeSize ↔
        ([7, 7] : List Nat).length = roundtripDemoDataset.computeSize) ∧
      ([0, 0, 0, 0, 0] : List Nat).length = roundtripDemoDataset.computeSize := by
  exact runtime_buffer_length roundtripDemoDataset 1
    (TelegramRuntime.create roundtripDemoDataset 1) [9] [7, 7]
    [] [0, 0, 0, 0, 0] (by rfl) (by decide)

theorem dispatchStep_inactive (sa : Bool) (now : Nat) (p : Bool)
    (e : EndpointHandle) (h : e.txCyclicActive = false) :
    dispatchStep sa now p e = (e, false) := by
  unfold dispatchStep
  by_cases h1 : e.tdef.type ≠ TelegramType.PD ∨ e.tdef.direction ≠ Direction.Tx
  · rw [if_pos h1]
  · rw [if_neg h1, if_pos (Or.inl (by simp [h]))]

theorem sendTx_active_unchanged (sa : Bool) (o : StackOracle) (found : Bool)
    (e : EndpointHandle) (md : MdStates) (fm : FieldMap)
    (res : Except Unit Bool) (e' : EndpointHandle) (md' : MdStates)
    (h : sendTxTelegram sa o found e md fm = (res, e', md'))
    (hne : res ≠ Except.ok true) :
    e'.txCyclicActive = e.txCyclicActive := by
  unfold sendTxTelegram at h
  split at h
  · simp only [Prod.mk.injEq] at h
    obtain ⟨h1, h2, h3⟩ := h
    rw [← h2]
  · split at h
    · simp only [Prod.mk.injEq] at h
      obtain ⟨h1, h2, h3⟩ := h
      rw [← h2]
    · dsimp only at h
      cases henc : encodeFields (applyOverrides e.runtime fm).datasetDef
          (mergeRuntimeFields (applyOverrides e.runtime fm) fm) with
      | none =>
          rw [henc] at h
          simp only [Prod.mk.injEq] at h
          obtain ⟨h1, h2, h3⟩ := h
          rw [← h2]
      | some buffer =>
          rw [henc] at h
          repeat' split at h
          all_goals simp only [Prod.mk.injEq] at h
          all_goals obtain ⟨h1, h2, h3⟩ := h
          all_goals first
            | exact absurd h1.symm hne
            | rw [← h2]

theorem runSched_inactive (sa : Bool) (evs : List SchedEvent) :
    ∀ e md stf n s, e.txCyclicActive = false →
      runSched sa (e, md) evs = (stf, n, s) → s = false →
      n = 0 ∧ stf.1.txCyclicActive = false := by
  induction evs with
  | nil =>
      intro e md stf n s hin h hs
      simp only [runSched, Prod.mk.injEq] at h
      obtain ⟨h1, h2, h3⟩ := h
      exact ⟨h2.symm, h1 ▸ hin⟩
  | cons ev evs ih =>
      intro e md stf n s hin h hs
      cases ev with
      | tick now pubOk =>
          simp only [runSched] at h
          rw [dispatchStep_inactive sa now pubOk e hin] at h
          cases hrest : runSched sa (e, md) evs with
          | mk st2 p2 =>
              cases p2 with
              | mk n2 s2 =>
                  rw [hrest] at h
                  simp only [Bool.false_eq_true, if_false, Nat.zero_add,
                    Prod.mk.injEq] at h
                  obtain ⟨h1, h2, h3⟩ := h
                  obtain ⟨hn2, hst2⟩ := ih e md st2 n2 s2 hin hrest (h3.trans hs)
                  exact ⟨by omega, h1 ▸ hst2⟩
      | send o fm =>
          simp only [runSched] at h
          cases hsend : sendTxTelegram sa o true e md fm with
          | mk res1 p1 =>
              cases p1 with
              | mk e1 md1 =>
                  rw [hsend] at h
                  cases hrest : runSched sa (e1, md1) evs with
                  | mk st2 p2 =>
                      cases p2 with
                      | mk n2 s2 =>
                          rw [hrest] at h
                          simp only [Prod.mk.injEq] at h
                          obtain ⟨h1, h2, h3⟩ := h
                          have hor := h3.trans hs
                          simp only [Bool.or_eq_false_iff,
                            decide_eq_false_iff_not] at hor
                          have hin1 : e1.txCyclicActive = false := by
                            rw [sendTx_active_unchanged sa o true e md fm res1
                              e1 md1 hsend hor.1]
                            exact hin
                          obtain ⟨hn2, hst2⟩ := ih e1 md1 st2 n2 s2 hin1 hrest
                            hor.2
                          exact ⟨by omega, h1 ▸ hst2⟩

/-- C6: a failed cyclic publish permanently disables that endpoint's cyclic
transmission.  If a due TX PD endpoint's `publishPdBuffer` fails during
`dispatchCyclicTransmissions`, the tick clears `txCyclicActive`; from then
on, over any sequence of worker ticks and `sendTxTelegram` calls in which no
send returns success, the scheduler performs no further cyclic publish
attempt and the flag stays cleared — only a successful explicit send (which
re-arms `txCyclicActive` when `cycle > 0`) can resume cyclic publishing. -/
theorem failed_publish_disables_cyclic (sa : Bool) (e : EndpointHandle)
    (md : MdStates) (now : Nat) (evs : List SchedEvent)
    (hpd : e.tdef.type = TelegramType.PD)
    (htx : e.tdef.direction = Direction.Tx)
    (hact : e.txCyclicActive = true) (hcyc : 0 < e.cycle)
    (hns : e.nextSend ≠ 0) (hdue : e.nextSend ≤ now)
    (hfail : publishPdBuffer sa false e = false) :
    (dispatchStep sa now false e).2 = true ∧
      (dispatchStep sa now false e).1.txCyclicActive = false ∧
      ∀ stf n s, runSched sa ((dispatchStep sa now false e).1, md) evs =
          (stf, n, s) → s = false → n = 0 ∧ stf.1.txCyclicActive = false := by
  have hstep : dispatchStep sa now false e =
      ({ e with txCyclicActive := false }, true) := by
    unfold dispatchStep
    rw [if_neg (by simp [hpd, htx])]
    rw [if_neg (by rw [hact]; simp; omega)]
    rw [if_neg hns]
    rw [if_neg (by omega)]
    rw [if_neg (by simp [hfail])]
  rw [hstep]
  refine ⟨rfl, rfl, ?_⟩
  intro stf n s h hs
  exact runSched_inactive sa evs { e with txCyclicActive := false } md stf n s
    rfl h hs

/-- C6 witness: the failing tick and a concrete follow-up trace (one tick,
one failing explicit send) on a concrete endpoint. -/
theorem failed_publish_disables_cyclic_witness :
    (dispatchStep true 5 false demoPdEndpoint).2 = true ∧
      (dispatchStep true 5 false demoPdEndpoint).1.txCyclicActive = false ∧
      ∀ stf n s, runSched true ((dispatchStep true 5 false demoPdEndpoint).1, [])
          [SchedEvent.tick 20 true, SchedEvent.send { pubOk := false } []] =
          (stf, n, s) → s = false → n = 0 ∧ stf.1.txCyclicActive = false := by
  exact failed_publish_disables_cyclic true demoPdEndpoint [] 5
    [SchedEvent.tick 20 true, SchedEvent.send { pubOk := false } []]
    rfl rfl rfl (by decide) (by decide) (by decide) (by decide)

/-- C7 (amended): when `sendTxTelegram` succeeds for an MD endpoint with the
stack available, an `MdRequestState` keyed by the 16-byte session id returned
by `tlm_request` is registered — except when `expectedReplies = 0` and
`confirmTimeout = 0`, in which case `trackMdRequest` returns early and no
session state is tracked at all.  The registered state carries the endpoint's
comId and expected replies, deadlines only for positive timeouts, and
`confirmObserved` pre-satisfied when no confirm timeout was requested. -/
theorem md_request_tracking (o : StackOracle) (e : EndpointHandle)
    (md : MdStates) (fm : FieldMap) (res : Except Unit Bool)
    (e' : EndpointHandle) (md' : MdStates)
    (hmd : e.tdef.type = TelegramType.MD)
    (hsend : sendTxTelegram true o true e md fm = (res, e', md'))
    (hres : res = Except.ok true) :
    (e.tdef.expectedReplies = 0 ∧ e.tdef.confirmTimeout = 0 → md' = md) ∧
      (¬ (e.tdef.expectedReplies = 0 ∧ e.tdef.confirmTimeout = 0) →
        alGet md' o.sessionId = some
          { comId := e.tdef.comId
            expectedReplies := e.tdef.expectedReplies
            receivedReplies := 0
            sentAt := o.now
            replyDeadline :=
              if e.tdef.replyTimeout > 0 then o.now + e.tdef.replyTimeout.toNat
              else 0
            confirmDeadline :=
              if e.tdef.confirmTimeout > 0 then
                o.now + e.tdef.confirmTimeout.toNat
              else 0
            confirmObserved := decide (e.tdef.confirmTimeout = 0) }) := by
  subst hres
  unfold sendTxTelegram at hsend
  split at hsend
  · rename_i hcond
    simp at hcond
  · split at hsend
    · simp only [Prod.mk.injEq] at hsend
      obtain ⟨h1, h2, h3⟩ := hsend
      simp at h1
    · dsimp only at hsend
      cases henc : encodeFields (applyOverrides e.runtime fm).datasetDef
          (mergeRuntimeFields (applyOverrides e.runtime fm) fm) with
      | none =>
          rw [henc] at hsend
          simp at hsend
      | some buffer =>
          rw [henc] at hsend
          dsimp only at hsend
          split at hsend
          · split at hsend
            · simp at hsend
            · split at hsend
              · split at hsend
                · simp at hsend
                · simp only [Prod.mk.injEq] at hsend
                  obtain ⟨h1, h2, h3⟩ := hsend
                  rw [← h3]
                  constructor
                  · intro hzero
                    unfold trackMdRequest
                    split
                    · rfl
                    · rename_i hcon
                      exact absurd hzero hcon
                  · intro hnz
                    unfold trackMdRequest
                    split
                    · rename_i hcon
                      exact absurd hcon hnz
                    · exact alGet_alSet md o.sessionId _
              · rename_i hsa
                simp at hsa
          · rename_i htype
            exact absurd hmd htype

/-- C7 counterexample: with `expectedReplies = 0` and `confirmTimeout = 0`
the MD send succeeds (stack available, request accepted) yet no
`MdRequestState` is registered — the session tracker stays empty. -/
theorem md_request_tracking_cex :
    (sendTxTelegram true { now := 100, sessionId := List.replicate 16 7 } true
        demoMdEndpointZero [] []).1 = Except.ok true ∧
      (sendTxTelegram true { now := 100, sessionId := List.replicate 16 7 } true
        demoMdEndpointZero [] []).2.2 = [] ∧
      alGet (sendTxTelegram true { now := 100, sessionId := List.replicate 16 7 }
          true demoMdEndpointZero [] []).2.2 (List.replicate 16 7) = none := by
  refine ⟨rfl, rfl, rfl⟩

/-- C7 witness: with `expectedReplies = 2`, `replyTimeout = 500 ms` and
`confirmTimeout = 0`, a successful send registers the session state under the
returned session id. -/
theorem md_request_tracking_witness :
    alGet (sendTxTelegram true { now := 100, sessionId := List.replicate 16 9 }
        true demoMdEndpointTwo [] []).2.2 (List.replicate 16 9) =
      some
        { comId := 3, expectedReplies := 2, receivedReplies := 0, sentAt := 100,
          replyDeadline := 600, confirmDeadline := 0, confirmObserved := true } := by
  have h := md_request_tracking
    { now := 100, sessionId := List.replicate 16 9 } demoMdEndpointTwo [] []
    (sendTxTelegram true { now := 100, sessionId := List.replicate 16 9 } true
      demoMdEndpointTwo [] []).1
    (sendTxTelegram true { now := 100, sessionId := List.replicate 16 9 } true
      demoMdEndpointTwo [] []).2.1
    (sendTxTelegram true { now := 100, sessionId := List.replicate 16 9 } true
      demoMdEndpointTwo [] []).2.2
    rfl rfl rfl
  exact h.2 (by decide)

theorem trimCaches_frame (now : Nat) (e : TrdpEngine) :
    ∃ u i l, TrdpEngine.trimCaches now e =
      { e with uriCache := u, ipCache := i, labelCache := l } := by
  unfold TrdpEngine.trimCaches
  split
  · exact ⟨[], [], [], rfl⟩
  · exact ⟨_, _, _, rfl⟩

theorem updateEcspControl_value (e : TrdpEngine) :
    TrdpEngine.updateEcspControl e =
      { e with
          lastEcspCtrl :=
            if e.ecspInitialised then
              some (e.config.ecspConfig.enable, e.config.ecspConfig.confirmTimeout)
            else e.lastEcspCtrl } := by
  unfold TrdpEngine.updateEcspControl
  by_cases h : e.ecspInitialised = true
  · rw [if_neg (by simp [h]), if_pos h]
  · have h' : e.ecspInitialised = false := by simpa using h
    rw [if_pos (by simp [h']), if_neg (by simp [h'])]

/-- C8: calling `start(config')` while the engine is already running with a
configuration differing in at least one diff field keeps the engine running
and returns `true`; both topology counters are bumped by exactly one (and the
dirty flag set, per `markTopologyChanged`), the three caches are trimmed
under the new configuration, ECSP control is re-applied when initialised, the
new configuration is stored, and everything else — endpoints, MD session
states, session flags, worker (its generation counter), stack availability,
ECSP initialisation, stop flag — is untouched: no teardown, no endpoint
rebuild, no worker restart. -/
theorem start_running_reapplies (o : StartOracle) (cfg : TrdpConfig)
    (e : TrdpEngine) (hrun : e.running = true)
    (hdiff : configChangedCheck e.config cfg = true) :
    (TrdpEngine.start o cfg e).1 = true ∧
      (TrdpEngine.start o cfg e).2.running = true ∧
      (TrdpEngine.start o cfg e).2.etbTopoCounter = e.etbTopoCounter + 1 ∧
      (TrdpEngine.start o cfg e).2.opTrainTopoCounter =
        e.opTrainTopoCounter + 1 ∧
      (TrdpEngine.start o cfg e).2.topologyCountersDirty = true ∧
      (TrdpEngine.start o cfg e).2.config = cfg ∧
      (TrdpEngine.start o cfg e).2.uriCache =
        (TrdpEngine.trimCaches o.now
          (TrdpEngine.markTopologyChanged { e with config := cfg })).uriCache ∧
      (TrdpEngine.start o cfg e).2.ipCache =
        (TrdpEngine.trimCaches o.now
          (TrdpEngine.markTopologyChanged { e with config := cfg })).ipCache ∧
      (TrdpEngine.start o cfg e).2.labelCache =
        (TrdpEngine.trimCaches o.now
          (TrdpEngine.markTopologyChanged { e with config := cfg })).labelCache ∧
      (TrdpEngine.start o cfg e).2.lastEcspCtrl =
        (if e.ecspInitialised then
          some (cfg.ecspConfig.enable, cfg.ecspConfig.confirmTimeout)
        else e.lastEcspCtrl) ∧
      (TrdpEngine.start o cfg e).2.endpoints = e.endpoints ∧
      (TrdpEngine.start o cfg e).2.mdRequestStates = e.mdRequestStates ∧
      (TrdpEngine.start o cfg e).2.workerGeneration = e.workerGeneration ∧
      (TrdpEngine.start o cfg e).2.pdSessionInitialised =
        e.pdSessionInitialised ∧
      (TrdpEngine.start o cfg e).2.mdSessionInitialised =
        e.mdSessionInitialised ∧
      (TrdpEngine.start o cfg e).2.stackAvailable = e.stackAvailable ∧
      (TrdpEngine.start o cfg e).2.ecspInitialised = e.ecspInitialised ∧
      (TrdpEngine.start o cfg e).2.stopRequested = e.stopRequested := by
  have hstart : TrdpEngine.start o cfg e =
      (true,
        TrdpEngine.updateEcspControl
          (TrdpEngine.trimCaches o.now
            (TrdpEngine.markTopologyChanged { e with config := cfg }))) := by
    unfold TrdpEngine.start
    rw [hrun]
    simp [hdiff]
  have hmark : TrdpEngine.markTopologyChanged { e with config := cfg } =
      { e with config := cfg, etbTopoCounter := e.etbTopoCounter + 1,
               opTrainTopoCounter := e.opTrainTopoCounter + 1,
               topologyCountersDirty := true } := rfl
  obtain ⟨u, i, l, htrim⟩ :=
    trimCaches_frame o.now
      (TrdpEngine.markTopologyChanged { e with config := cfg })
  have hfinal : TrdpEngine.start o cfg e =
      (true,
        { e with config := cfg, etbTopoCounter := e.etbTopoCounter + 1,
                 opTrainTopoCounter := e.opTrainTopoCounter + 1,
                 topologyCountersDirty := true,
                 uriCache := u, ipCache := i, labelCache := l,
                 lastEcspCtrl :=
                   if e.ecspInitialised then
                     some (cfg.ecspConfig.enable, cfg.ecspConfig.confirmTimeout)
                   else e.lastEcspCtrl }) := by
    rw [hstart, htrim, updateEcspControl_value]
    rfl
  rw [hfinal, htrim, hmark]
  simp [hrun]

/-- C8 witness: a running engine reconfigured with a different idle
interval. -/
theorem start_running_reapplies_witness :
    (TrdpEngine.start { now := 7 } { idleInterval := 60 }
        { running := true, etbTopoCounter := 4, opTrainTopoCounter := 4 }).1 =
        true ∧
      (TrdpEngine.start { now := 7 } { idleInterval := 60 }
          { running := true, etbTopoCounter := 4,
            opTrainTopoCounter := 4 }).2.running = true ∧
      (TrdpEngine.start { now := 7 } { idleInterval := 60 }
          { running := true, etbTopoCounter := 4,
            opTrainTopoCounter := 4 }).2.etbTopoCounter = 4 + 1 ∧
      (TrdpEngine.start { now := 7 } { idleInterval := 60 }
          { running := true, etbTopoCounter := 4,
            opTrainTopoCounter := 4 }).2.opTrainTopoCounter = 4 + 1 := by
  have h := start_running_reapplies { now := 7 } { idleInterval := 60 }
    { running := true, etbTopoCounter := 4, opTrainTopoCounter := 4 }
    rfl (by decide)
  exact ⟨h.1, h.2.1, h.2.2.1, h.2.2.2.1⟩

theorem applyOverrides_nil (rt : TelegramRuntime) : applyOverrides rt [] = rt :=
  rfl

theorem applyOverrides_cons (rt : TelegramRuntime) (k : String) (v : FieldValue)
    (r : FieldMap) :
    applyOverrides rt ((k, v) :: r) = applyOverrides ((rt.setFieldValue k v).1) r :=
  rfl

theorem setFieldValue_datasetDef (rt : TelegramRuntime) (n : String)
    (v : FieldValue) : ((rt.setFieldValue n v).1).datasetDef = rt.datasetDef := by
  unfold TelegramRuntime.setFieldValue
  split <;> rfl

theorem applyOverrides_datasetDef (rt : TelegramRuntime) (fm : FieldMap) :
    (applyOverrides rt fm).datasetDef = rt.datasetDef := by
  induction fm generalizing rt with
  | nil => rfl
  | cons kv r ih =>
      obtain ⟨k, v⟩ := kv
      rw [applyOverrides_cons, ih, setFieldValue_datasetDef]

theorem applyOverrides_getField_isSome (rt : TelegramRuntime) (fm : FieldMap)
    (n : String) :
    ((applyOverrides rt fm).getFieldValue n).isSome =
      (rt.getFieldValue n).isSome := by
  induction fm generalizing rt with
  | nil => rfl
  | cons kv r ih =>
      obtain ⟨k, v⟩ := kv
      rw [applyOverrides_cons, ih, setFieldValue_getField_isSome]

theorem alGet_eq_none_of_not_mem [DecidableEq κ] (l : List (κ × ν)) (n : κ)
    (h : n ∉ l.map Prod.fst) : alGet l n = none := by
  induction l with
  | nil => rfl
  | cons kv r ih =>
      obtain ⟨k, v⟩ := kv
      simp only [List.map_cons, List.mem_cons] at h
      unfold alGet
      rw [if_neg (fun he => h (Or.inl he))]
      exact ih (fun he => h (Or.inr he))

theorem applyOverrides_getField_absent (rt : TelegramRuntime) (fm : FieldMap)
    (n : String) (h : alGet fm n = none) :
    (applyOverrides rt fm).getFieldValue n = rt.getFieldValue n := by
  induction fm generalizing rt with
  | nil => rfl
  | cons kv r ih =>
      obtain ⟨k, v⟩ := kv
      unfold alGet at h
      by_cases hk : n = k
      · rw [if_pos hk] at h
        cases h
      · rw [if_neg hk] at h
        rw [applyOverrides_cons, ih _ h, setFieldValue_getField_other _ _ _ _ hk]

theorem applyOverrides_getField_present (rt : TelegramRuntime) (fm : FieldMap)
    (n : String) (w : FieldValue) (hnod : (fm.map Prod.fst).Nodup)
    (hw : alGet fm n = some w) (hk : (rt.getFieldValue n).isSome = true) :
    (applyOverrides rt fm).getFieldValue n = some w := by
  induction fm generalizing rt with
  | nil => cases hw
  | cons kv r ih =>
      obtain ⟨k, v⟩ := kv
      rw [List.map_cons, List.nodup_cons] at hnod
      unfold alGet at hw
      by_cases hkn : n = k
      · rw [if_pos hkn] at hw
        obtain rfl : v = w := by injection hw
        subst hkn
        rw [applyOverrides_cons]
        rw [applyOverrides_getField_absent _ r n
          (alGet_eq_none_of_not_mem r n hnod.1)]
        exact setFieldValue_getField_present rt n v hk
      · rw [if_neg hkn] at hw
        rw [applyOverrides_cons]
        exact ih ((rt.setFieldValue k v).1) hnod.2 hw
          (by rw [setFieldValue_getField_isSome]; exact hk)

/-- C10: `sendTxTelegram` is not atomic on failure.  For a known TX endpoint,
the override values are written into the runtime's field mapping and the
re-encoded buffer is stored before any send is attempted, so a call that then
returns `false` (MD binding not ready, MD request rejected, or PD publish
failure) leaves the runtime's fields updated with the overrides and its wire
buffer holding the freshly encoded bytes; the MD session tracker is
untouched. -/
theorem sendTx_failure_keeps_updates (sa : Bool) (o : StackOracle)
    (e : EndpointHandle) (md : MdStates) (fm : FieldMap)
    (res : Except Unit Bool) (e' : EndpointHandle) (md' : MdStates)
    (htx : e.tdef.direction = Direction.Tx)
    (hnod : (fm.map Prod.fst).Nodup)
    (hsend : sendTxTelegram sa o true e md fm = (res, e', md'))
    (hfail : res = Except.ok false) :
    md' = md ∧
      e'.runtime.datasetDef = e.runtime.datasetDef ∧
      (∀ b, encodeFields e.runtime.datasetDef
          (mergeRuntimeFields (applyOverrides e.runtime fm) fm) = some b →
        e'.runtime.buffer = b) ∧
      (∀ n w, alGet fm n = some w →
        (e.runtime.getFieldValue n).isSome = true →
        e'.runtime.getFieldValue n = some w) ∧
      (∀ n, alGet fm n = none →
        e'.runtime.getFieldValue n = e.runtime.getFieldValue n) := by
  subst hfail
  unfold sendTxTelegram at hsend
  split at hsend
  · rename_i hcond
    simp at hcond
  · split at hsend
    · rename_i hdir
      exact absurd htx hdir
    · dsimp only at hsend
      cases henc : encodeFields (applyOverrides e.runtime fm).datasetDef
          (mergeRuntimeFields (applyOverrides e.runtime fm) fm) with
      | none =>
          rw [henc] at hsend
          simp at hsend
      | some buffer =>
          rw [henc] at hsend
          dsimp only at hsend
          rw [applyOverrides_datasetDef] at henc
          have hok : ∀ hs2 : (Except.ok false, { e with runtime :=
                (applyOverrides e.runtime fm).overwriteBuffer buffer },
                md) = ((Except.ok false : Except Unit Bool), e', md'),
              md' = md ∧
              e'.runtime.datasetDef = e.runtime.datasetDef ∧
              (∀ b, encodeFields e.runtime.datasetDef
                  (mergeRuntimeFields (applyOverrides e.runtime fm) fm) =
                  some b → e'.runtime.buffer = b) ∧
              (∀ n w, alGet fm n = some w →
                (e.runtime.getFieldValue n).isSome = true →
                e'.runtime.getFieldValue n = some w) ∧
              (∀ n, alGet fm n = none →
                e'.runtime.getFieldValue n = e.runtime.getFieldValue n) := by
            intro hs2
            simp only [Prod.mk.injEq] at hs2
            obtain ⟨h1, h2, h3⟩ := hs2
            refine ⟨h3.symm, ?_, ?_, ?_, ?_⟩
            · rw [← h2]
              show (applyOverrides e.runtime fm).datasetDef = _
              exact applyOverrides_datasetDef e.runtime fm
            · intro b hb
              rw [henc] at hb
              obtain rfl : buffer = b := by injection hb
              rw [← h2]
              rfl
            · intro n w hw hk
              rw [← h2]
              show (applyOverrides e.runtime fm).getFieldValue n = some w
              exact applyOverrides_getField_present e.runtime fm n w hnod hw hk
            · intro n hn
              rw [← h2]
              show (applyOverrides e.runtime fm).getFieldValue n = _
              exact applyOverrides_getField_absent e.runtime fm n hn
          split at hsend
          · split at hsend
            · exact hok hsend
            · split at hsend
              · split at hsend
                · exact hok hsend
                · simp at hsend
              · simp at hsend
          · split at hsend
            · split at hsend
              · simp at hsend
              · simp at hsend
            · exact hok hsend

/-- C10 witness: a concrete TX PD send whose publish handle is not ready
fails, yet the override for field `a` and the freshly encoded buffer stick,
and the MD tracker is untouched. -/
theorem sendTx_failure_keeps_updates_witness :
    (sendTxTelegram true { } true demoFailingPdEndpoint []
        [("a", FieldValue.vUInt16 42)]).2.2 = [] ∧
      (sendTxTelegram true { } true demoFailingPdEndpoint []
          [("a", FieldValue.vUInt16 42)]).2.1.runtime.datasetDef =
        demoFailingPdEndpoint.runtime.datasetDef ∧
      (∀ b, encodeFields demoFailingPdEndpoint.runtime.datasetDef
          (mergeRuntimeFields
            (applyOverrides demoFailingPdEndpoint.runtime
              [("a", FieldValue.vUInt16 42)])
            [("a", FieldValue.vUInt16 42)]) = some b →
        (sendTxTelegram true { } true demoFailingPdEndpoint []
            [("a", FieldValue.vUInt16 42)]).2.1.runtime.buffer = b) ∧
      (∀ n w, alGet [("a", FieldValue.vUInt16 42)] n = some w →
        (demoFailingPdEndpoint.runtime.getFieldValue n).isSome = true →
        (sendTxTelegram true { } true demoFailingPdEndpoint []
            [("a", FieldValue.vUInt16 42)]).2.1.runtime.getFieldValue n =
          some w) ∧
      (∀ n, alGet [("a", FieldValue.vUInt16 42)] n = none →
        (sendTxTelegram true { } true demoFailingPdEndpoint []
            [("a", FieldValue.vUInt16 42)]).2.1.runtime.getFieldValue n =
          demoFailingPdEndpoint.runtime.getFieldValue n) := by
  exact sendTx_failure_keeps_updates true { } demoFailingPdEndpoint []
    [("a", FieldValue.vUInt16 42)]
    (sendTxTelegram true { } true demoFailingPdEndpoint []
        [("a", FieldValue.vUInt16 42)]).1
    (sendTxTelegram true { } true demoFailingPdEndpoint []
        [("a", FieldValue.vUInt16 42)]).2.1
    (sendTxTelegram true { } true demoFailingPdEndpoint []
        [("a", FieldValue.vUInt16 42)]).2.2
    rfl (by decide) rfl (by decide)

end Trdp
